import Mathlib

/-!
Verification of the fillstruct zero-value synthesis engine
(`cmd/fillstruct/main.go` of davidrjenni/reftools).

The development shallowly embeds the synthesis code:

* `Typ` mirrors the `go/types` type descriptors consumed by `filler.zero`
  (struct identity is modelled by a numeric tag `sid`, standing for the
  `*types.Struct` pointer identity that the `visited` list compares with `==`;
  named types are references resolved through an environment `Env`, mirroring
  `types.Named.Underlying()`, which in `go/types` never yields a `*types.Named`).
* `Expr` mirrors the `go/ast` expression nodes produced and renumbered by the
  tool, with every synthetic position field represented as a `Nat`
  (`token.NoPos` is `0`).
* `zero`, `structLoop`, `arrayLoop` transcribe `filler.zero`; `fixE` transcribes
  `filler.fixExprPos`; `zeroValue` transcribes the `zeroValue` entry point
  including the `e.(*ast.KeyValueExpr)` / `kv.Key.(*ast.Ident)` assertions.
  Recursion is made total by an explicit fuel parameter; running out of fuel is
  the distinguished result `Abort.oom`, so genuine non-termination of the Go
  code shows up as `Abort.oom` for every fuel.
* `byLine`'s reversal loop and the `ast.Inspect` discovery walk are modelled by
  `revLoop` / `inspectLits`.
-/

namespace Fillstruct

/-- The basic (primitive) kinds distinguished by `filler.zero`'s
`*types.Basic` switch.  Width variants of the same group produce identical
output in the source, so each group is one constructor; `kInvalid` is the
`default:` arm that yields a nil expression. -/
inductive BasicKind where
  | kBool | kInt | kUint | kUintptr | kRawPtr | kFloat | kComplex | kString | kInvalid
deriving DecidableEq, Repr

/-- Identity of a named type: the declaring package, the type's name and
whether the name is exported (`types.Named.Obj()`). -/
structure TypeName where
  pkg : Nat
  str : String
  exported : Bool
deriving DecidableEq, Repr

mutual
/-- Structural type descriptors, mirroring the `types.Type` variants handled by
`filler.zero`.  `tstruct` carries a numeric identity `sid` standing for the
`*types.Struct` pointer compared by the `visited` loop. -/
inductive Typ where
  | basic (k : BasicKind)
  | tchan
  | iface
  | tmap (key : Typ) (value : Typ)
  | sig
  | slice (elem : Typ)
  | array (len : Nat) (elem : Typ)
  | named (n : TypeName)
  | pointer (elem : Typ)
  | tstruct (sid : Nat) (fields : FieldList)

/-- Ordered struct fields: name, exported flag (`types.Var.Exported()`) and
field type. -/
inductive FieldList where
  | nil
  | cons (name : String) (exported : Bool) (typ : Typ) (rest : FieldList)
end

/-- Environment mapping each named type to its `Underlying()` structural type. -/
def Env := List (TypeName × Typ)

def lookupEnv : Env → TypeName → Option Typ
  | [], _ => Option.none
  | (m, t) :: rest, n => if m = n then Option.some t else lookupEnv rest n

mutual
/-- `go/ast` expression nodes, restricted to the node kinds produced by
`filler.zero` and renumbered by `filler.fixExprPos`.  Every position field is a
`Nat`; `0` is `token.NoPos` (the position of nodes built by `ast.NewIdent` or
left unset). -/
inductive Expr where
  | ident (name : String) (namePos : Nat)
  | basicLit (value : String) (valuePos : Nat)
  | binary (x : Expr) (opPos : Nat) (y : Expr)
  | call (fn : Expr) (lparen : Nat) (args : ExprList) (rparen : Nat)
  | compositeLit (annot : OExpr) (lbrace : Nat) (elts : ExprList) (rbrace : Nat)
  | ellipsisE (pos : Nat) (elt : OExpr)
  | funcLit (funcPos : Nat)
  | indexE (x : Expr) (lbrack : Nat) (idx : Expr) (rbrack : Nat)
  | keyValue (key : OExpr) (colon : Nat) (value : OExpr)
  | paren (lparen : Nat) (x : Expr) (rparen : Nat)
  | selector (x : Expr) (selPos : Nat) (selName : String)
  | sliceE (x : Expr) (lbrack : Nat) (low : OExpr) (high : OExpr) (maxE : OExpr) (rbrack : Nat)
  | star (starPos : Nat) (x : Expr)
  | unary (opPos : Nat) (x : Expr)
  | mapType (mapPos : Nat) (key : Expr) (value : Expr)
  | arrayType (lbrack : Nat) (len : Expr) (elt : Expr)

/-- A list of expressions (`[]ast.Expr`). -/
inductive ExprList where
  | nil
  | cons (e : Expr) (rest : ExprList)

/-- A possibly-nil expression (`ast.Expr` fields that may hold Go `nil`). -/
inductive OExpr where
  | none
  | some (e : Expr)
end

def eltsLen : ExprList → Nat
  | .nil => 0
  | .cons _ rest => eltsLen rest + 1

def toListE : ExprList → List Expr
  | .nil => []
  | .cons e rest => e :: toListE rest

/-- The traversal context `litInfo` of the source: base type, optional named
wrapper, the hide-type flag and the pointer-indirection flag. -/
structure LitInfo where
  typ : Typ
  name : Option TypeName
  hideType : Bool
  isPointer : Bool

/-- The mutable filler state threaded through the descent: the synthetic
position counter `f.pos`, the line accumulator `f.lines` and the one-shot
`f.first` flag. -/
structure St where
  pos : Nat
  lines : Nat
  first : Bool
deriving DecidableEq, Repr

/-- Abnormal outcomes: `oom` is fuel exhaustion (modelling non-termination of
the Go recursion), `impossible` marks situations `go/types` rules out (a named
type missing from the environment, or an `Underlying()` that is itself named),
`keyAssert` is the run-time panic of the type assertions in `zeroValue`'s
existing-entry loop. -/
inductive Abort where
  | oom
  | impossible
  | keyAssert
deriving DecidableEq, Repr

def basicName : BasicKind → Option String
  | .kBool => Option.some "bool"
  | .kInt => Option.some "int"
  | .kUint => Option.some "uint"
  | .kUintptr => Option.some "uintptr"
  | .kRawPtr => Option.some "unsafe.Pointer"
  | .kFloat => Option.some "float64"
  | .kComplex => Option.some "complex128"
  | .kString => Option.some "string"
  | .kInvalid => Option.none

mutual
/-- Modelled from the spec: the repository calls a helper `typeString(pkg, t)`
(not present under `src/`, only its call sites are) that renders a type as an
explicit name relative to the current package and reports with a boolean
whether such a name exists.  Following the spec's words: a type can be spelled
as an explicit name unless it is (or contains) an anonymous or unexported
external structural shape; foreign exported names are package-qualified. -/
def typeString (pkg : Nat) : Typ → Option String
  | .basic k => basicName k
  | .tchan => Option.some "chan int"
  | .iface => Option.some "interface\x7b\x7d"
  | .tmap k v =>
    match typeString pkg k, typeString pkg v with
    | Option.some a, Option.some b => Option.some ("map[" ++ a ++ "]" ++ b)
    | _, _ => Option.none
  | .sig => Option.some "func()"
  | .slice e => (typeString pkg e).map (fun a => "[]" ++ a)
  | .array n e => (typeString pkg e).map (fun a => "[" ++ toString n ++ "]" ++ a)
  | .named n =>
    if n.pkg = pkg then Option.some n.str
    else if n.exported then Option.some ("p" ++ toString n.pkg ++ "." ++ n.str)
    else Option.none
  | .pointer e => (typeString pkg e).map (fun a => "*" ++ a)
  | .tstruct _ fs => (fieldListString pkg fs).map (fun a => "struct\x7b" ++ a ++ "\x7d")

/-- Modelled from the spec: structural rendering of an anonymous struct's field
list; it exists exactly when every field type can be named. -/
def fieldListString (pkg : Nat) : FieldList → Option String
  | .nil => Option.some ""
  | .cons nm _ t rest =>
    match typeString pkg t, fieldListString pkg rest with
    | Option.some a, Option.some b => Option.some (nm ++ " " ++ a ++ ";" ++ b)
    | _, _ => Option.none
end

/-- `isImported(pkg, n)` of the source: `n != nil && pkg != n.Obj().Pkg()`. -/
def isImported (pkg : Nat) (n : Option TypeName) : Bool :=
  match n with
  | Option.none => false
  | Option.some nm => decide (¬ nm.pkg = pkg)

/-- `t.Underlying()` for a type that may be named: non-named types are their
own underlying; for named types the environment provides the structural
underlying (`go/types` guarantees it is never itself named). -/
def underlyingStrict (env : Env) : Typ → Except Abort Typ
  | .named n =>
    match lookupEnv env n with
    | Option.none => .error .impossible
    | Option.some u =>
      match u with
      | .named _ => .error .impossible
      | u => .ok u
  | t => .ok t

def isStructT : Typ → Bool
  | .tstruct _ _ => true
  | _ => false

def namedOf : Typ → Option TypeName
  | .named n => Option.some n
  | _ => Option.none

/-- Lookup in the existing-entry map (first match; `insertX` keeps keys
unique, so this is the Go map lookup). -/
def lookupX : List (String × Expr) → String → Option Expr
  | [], _ => Option.none
  | (a, b) :: rest, nm => if a = nm then Option.some b else lookupX rest nm

/-- Go map assignment `m[k] = v`: overwrite the binding if present. -/
def insertX : List (String × Expr) → String → Expr → List (String × Expr)
  | [], nm, v => [(nm, v)]
  | (a, b) :: rest, nm, v =>
    if a = nm then (a, v) :: rest else (a, b) :: insertX rest nm v

/-- The struct-case type annotation of `filler.zero` (lines 221-237): `none`
means the whole literal is abandoned (`return nil`), `some t?` is the optional
`newlit.Type`, with the `&` prefix applied when the literal sits behind a
pointer.  `ast.NewIdent` leaves the position at `0`. -/
def structTypeName (pkg : Nat) (info : LitInfo) (sid : Nat) (fields : FieldList) :
    Option OExpr :=
  if info.hideType then Option.some OExpr.none
  else
    match info.name with
    | Option.some nm =>
      match typeString pkg (.named nm) with
      | Option.none => Option.none
      | Option.some tn =>
        Option.some (OExpr.some (.ident (if info.isPointer then "&" ++ tn else tn) 0))
    | Option.none =>
      match typeString pkg (.tstruct sid fields) with
      | Option.none => Option.none
      | Option.some tn => Option.some (OExpr.some (.ident tn 0))

/-- The array-case type annotation of `filler.zero` (lines 180-190): `none`
means the whole literal is abandoned (`return nil`), `some t?` is the optional
`lit.Type`.  The `Len` literal and the `Elt` identifier carry no position. -/
def arrayTypeName (pkg : Nat) (info : LitInfo) (n : Nat) (elem : Typ) (lb : Nat) :
    Option OExpr :=
  if info.hideType then Option.some OExpr.none
  else
    match typeString pkg elem with
    | Option.none => Option.none
    | Option.some en =>
      Option.some (OExpr.some (.arrayType lb (.basicLit (toString n) 0) (.ident en 0)))

mutual
/-- `filler.fixExprPos`: rewrite the position fields of a reused expression to
the current counter.  Note that the `ParenExpr`, `Ellipsis` and `FuncLit`
cases only reposition their own leading token and do not recurse, exactly as
in the source; `MapType`/`ArrayType` have no case and are left untouched. -/
def fixE : Expr → St → Expr × St
  | .ident nm _, s => (.ident nm s.pos, s)
  | .basicLit v _, s => (.basicLit v s.pos, s)
  | .binary x _ y, s =>
    let r1 := fixE x s
    let op := r1.2.pos
    let r2 := fixE y r1.2
    (.binary r1.1 op r2.1, r2.2)
  | .call fn _ args _, s =>
    let r1 := fixE fn s
    let lp := r1.2.pos
    let r2 := fixL args r1.2
    (.call r1.1 lp r2.1 r2.2.pos, r2.2)
  | .compositeLit t _ elts _, s =>
    let r1 := fixO t s
    let lb := r1.2.pos
    let r2 := fixElts elts r1.2
    let n := eltsLen elts
    let s3 := if 0 < n then { r2.2 with lines := r2.2.lines + n + 2 } else r2.2
    let s4 := { s3 with pos := s3.pos + 1 }
    (.compositeLit r1.1 lb r2.1 s4.pos, s4)
  | .ellipsisE _ e, s => (.ellipsisE s.pos e, s)
  | .funcLit _, s => (.funcLit s.pos, s)
  | .indexE x _ i _, s =>
    let r1 := fixE x s
    let lb := r1.2.pos
    let r2 := fixE i r1.2
    (.indexE r1.1 lb r2.1 r2.2.pos, r2.2)
  | .keyValue k c v, s =>
    let r1 := fixO k s
    let r2 := fixO v r1.2
    (.keyValue r1.1 c r2.1, r2.2)
  | .paren _ x rp, s => (.paren s.pos x rp, s)
  | .selector x _ nm, s =>
    let r1 := fixE x s
    (.selector r1.1 r1.2.pos nm, r1.2)
  | .sliceE x _ lo hi mx _, s =>
    let r1 := fixE x s
    let lb := r1.2.pos
    let r2 := fixO lo r1.2
    let r3 := fixO hi r2.2
    let r4 := fixO mx r3.2
    (.sliceE r1.1 lb r2.1 r3.1 r4.1 r4.2.pos, r4.2)
  | .star _ x, s =>
    let p := s.pos
    let r1 := fixE x s
    (.star p r1.1, r1.2)
  | .unary _ x, s =>
    let p := s.pos
    let r1 := fixE x s
    (.unary p r1.1, r1.2)
  | .mapType a k v, s => (.mapType a k v, s)
  | .arrayType a l e, s => (.arrayType a l e, s)

/-- `fixExprPos` on a possibly-nil expression (`case nil: // ignore`). -/
def fixO : OExpr → St → OExpr × St
  | .none, s => (.none, s)
  | .some e, s =>
    let r := fixE e s
    (.some r.1, r.2)

/-- Fix a call's argument list (no counter step between arguments). -/
def fixL : ExprList → St → ExprList × St
  | .nil, s => (.nil, s)
  | .cons e rest, s =>
    let r1 := fixE e s
    let r2 := fixL rest r1.2
    (.cons r1.1 r2.1, r2.2)

/-- Fix a composite literal's elements (`f.pos++` before each element). -/
def fixElts : ExprList → St → ExprList × St
  | .nil, s => (.nil, s)
  | .cons e rest, s =>
    let s0 := { s with pos := s.pos + 1 }
    let r1 := fixE e s0
    let r2 := fixElts rest r1.2
    (.cons r1.1 r2.1, r2.2)
end

/-- The field loop of `filler.zero`'s struct case (lines 251-271), abstracted
over the recursive synthesis `zf` (which is `zero` at one less fuel).  Returns
the emitted entries, the local `lines` count of emitted entries, and the final
state. -/
def structLoop (zf : LitInfo → List Nat → St → Except Abort (OExpr × St))
    (ex : List (String × Expr)) (imported : Bool) (first : Bool)
    (visited : List Nat) : FieldList → St → Except Abort (ExprList × Nat × St)
  | .nil, s => .ok (.nil, 0, s)
  | .cons nm exported ft rest, s =>
    match first, lookupX ex nm with
    | true, Option.some kv =>
      let s1 := { s with pos := s.pos + 1 }
      let r := fixE kv s1
      match structLoop zf ex imported first visited rest r.2 with
      | .ok (es, cnt, s3) => .ok (.cons r.1 es, cnt + 1, s3)
      | .error a => .error a
    | fst, kvOpt =>
      if (!kvOpt.isSome && !imported) || exported then
        let s1 := { s with pos := s.pos + 1 }
        let k := Expr.ident nm s1.pos
        match zf { typ := ft, name := Option.none, hideType := false, isPointer := false }
            visited s1 with
        | .error a => .error a
        | .ok (OExpr.some v, s2) =>
          match structLoop zf ex imported fst visited rest s2 with
          | .ok (es, cnt, s3) =>
            .ok (.cons (.keyValue (OExpr.some k) 0 (OExpr.some v)) es, cnt + 1, s3)
          | .error a => .error a
        | .ok (OExpr.none, s2) =>
          let s3 := { s2 with pos := s2.pos - 1 }
          structLoop zf ex imported fst visited rest s3
      else structLoop zf ex imported fst visited rest s

/-- The element loop of `filler.zero`'s array case (lines 191-199), abstracted
over the recursive synthesis `zf`.  Elements whose synthesis yields nil are
skipped (`if v := f.zero(...); v != nil`). -/
def arrayLoop (zf : LitInfo → List Nat → St → Except Abort (OExpr × St))
    (env : Env) (elem : Typ) (visited : List Nat) :
    Nat → St → Except Abort (ExprList × St)
  | 0, s => .ok (.nil, s)
  | n + 1, s =>
    let s1 := { s with pos := s.pos + 1 }
    match underlyingStrict env elem with
    | .error a => .error a
    | .ok u =>
      match zf { typ := u, name := namedOf elem, hideType := true, isPointer := false }
          visited s1 with
      | .error a => .error a
      | .ok (OExpr.some v, s2) =>
        match arrayLoop zf env elem visited n s2 with
        | .ok (es, s3) => .ok (.cons v es, s3)
        | .error a => .error a
      | .ok (OExpr.none, s2) => arrayLoop zf env elem visited n s2

/-- `filler.zero` (lines 116-282), made total with fuel.  The result `OExpr`
is the returned `ast.Expr` (which may be Go `nil`); the state carries the
mutated `pos`, `lines` and `first` fields. -/
def zero (env : Env) (pkg : Nat) (ex : List (String × Expr)) :
    Nat → LitInfo → List Nat → St → Except Abort (OExpr × St)
  | 0, _, _, _ => .error .oom
  | fuel + 1, info, visited, s =>
    match info.typ with
    | .basic k =>
      match k with
      | .kBool => .ok (OExpr.some (.ident "false" s.pos), s)
      | .kInt => .ok (OExpr.some (.basicLit "0" s.pos), s)
      | .kUint => .ok (OExpr.some (.basicLit "0" s.pos), s)
      | .kUintptr => .ok (OExpr.some (.basicLit "uintptr(0)" s.pos), s)
      | .kRawPtr => .ok (OExpr.some (.basicLit "unsafe.Pointer(uintptr(0))" s.pos), s)
      | .kFloat => .ok (OExpr.some (.basicLit "0.0" s.pos), s)
      | .kComplex => .ok (OExpr.some (.basicLit "(0 + 0i)" s.pos), s)
      | .kString => .ok (OExpr.some (.basicLit "\"\"" s.pos), s)
      | .kInvalid => .ok (OExpr.none, s)
    | .tchan => .ok (OExpr.some (.ident "nil" s.pos), s)
    | .iface => .ok (OExpr.some (.ident "nil" s.pos), s)
    | .tmap kt vt =>
      match typeString pkg kt, typeString pkg vt with
      | Option.some ks, Option.some vs =>
        let lb := s.pos
        let s1 := { s with pos := s.pos + 1 }
        match zero env pkg ex fuel
            { typ := kt, name := info.name, hideType := true, isPointer := false }
            visited s1 with
        | .error a => .error a
        | .ok (ke, s2) =>
          match zero env pkg ex fuel
              { typ := vt, name := info.name, hideType := true, isPointer := false }
              visited s2 with
          | .error a => .error a
          | .ok (ve, s3) =>
            let s4 := { s3 with pos := s3.pos + 1, lines := s3.lines + 2 }
            .ok (OExpr.some (.compositeLit
                (OExpr.some (.mapType lb (.ident ks 0) (.ident vs 0)))
                lb (.cons (.keyValue ke s2.pos ve) .nil) s4.pos), s4)
      | _, _ => .ok (OExpr.none, s)
    | .sig => .ok (OExpr.some (.ident "nil" s.pos), s)
    | .slice _ => .ok (OExpr.some (.ident "nil" s.pos), s)
    | .array n elem =>
      let lb := s.pos
      match arrayTypeName pkg info n elem lb with
      | Option.none => .ok (OExpr.none, s)
      | Option.some ann =>
        match arrayLoop (zero env pkg ex fuel) env elem visited n s with
        | .error a => .error a
        | .ok (es, s2) =>
          let s3 := { s2 with lines := s2.lines + eltsLen es + 2, pos := s2.pos + 1 }
          .ok (OExpr.some (.compositeLit ann lb es s3.pos), s3)
    | .named n =>
      match lookupEnv env n with
      | Option.none => .error .impossible
      | Option.some u =>
        match u with
        | .named _ => .error .impossible
        | u =>
          zero env pkg ex fuel
            { typ := u, name := if isStructT u then Option.some n else info.name,
              hideType := info.hideType, isPointer := info.isPointer } visited s
    | .pointer elem =>
      match underlyingStrict env elem with
      | .error a => .error a
      | .ok u =>
        if isStructT u then
          zero env pkg ex fuel
            { typ := elem, name := info.name, hideType := info.hideType, isPointer := true }
            visited s
        else .ok (OExpr.some (.ident "nil" s.pos), s)
    | .tstruct sid fields =>
      match structTypeName pkg info sid fields with
      | Option.none => .ok (OExpr.none, s)
      | Option.some ann =>
        let lb := s.pos
        if visited.contains sid then
          .ok (OExpr.some (.compositeLit ann lb .nil 0), s)
        else
          let visited' := visited ++ [sid]
          let first := s.first
          let s1 := { s with first := false }
          let imported := isImported pkg info.name
          match structLoop (zero env pkg ex fuel) ex imported first visited' fields s1 with
          | .error a => .error a
          | .ok (es, cnt, s2) =>
            let s3 :=
              if 0 < cnt then { s2 with lines := s2.lines + cnt + 2, pos := s2.pos + 1 }
              else s2
            .ok (OExpr.some (.compositeLit ann lb es s3.pos), s3)

/-- Building `f.existing` from the literal's elements (`zeroValue`, lines
109-112): each element must be a `*ast.KeyValueExpr` whose key is an
`*ast.Ident`; anything else is a run-time type-assertion panic. -/
def buildExisting : ExprList → List (String × Expr) → Except Abort (List (String × Expr))
  | .nil, acc => .ok acc
  | .cons e rest, acc =>
    match e with
    | .keyValue (OExpr.some (.ident nm p)) c v =>
      buildExisting rest (insertX acc nm (.keyValue (OExpr.some (.ident nm p)) c v))
    | _ => .error .keyAssert

/-- `zeroValue(pkg, lit, info)`: build the existing-entry map from the
literal's elements, then run the filler from position 1 with the first-flag
set; the result is the new expression and the line-count hint. -/
def zeroValue (fuel : Nat) (env : Env) (pkg : Nat) (elts : ExprList) (info : LitInfo) :
    Except Abort (OExpr × Nat) :=
  match buildExisting elts [] with
  | .error a => .error a
  | .ok ex =>
    match zero env pkg ex fuel info [] { pos := 1, lines := 0, first := true } with
    | .error a => .error a
    | .ok (oe, s) => .ok (oe, s.lines)

mutual
/-- The synthetic position markers of an expression, collected in the order of
the rendered tokens (type annotations precede the opening brace, keys precede
colons precede values).  `0` entries are `token.NoPos` markers of nodes built
without a position. -/
def markersE : Expr → List Nat
  | .ident _ p => [p]
  | .basicLit _ p => [p]
  | .binary x p y => markersE x ++ p :: markersE y
  | .call fn lp args rp => markersE fn ++ lp :: (markersL args ++ [rp])
  | .compositeLit t lb es rb => markersO t ++ lb :: (markersL es ++ [rb])
  | .ellipsisE p e => p :: markersO e
  | .funcLit p => [p]
  | .indexE x lb i rb => markersE x ++ lb :: (markersE i ++ [rb])
  | .keyValue k c v => markersO k ++ c :: markersO v
  | .paren lp x rp => lp :: (markersE x ++ [rp])
  | .selector x sp _ => markersE x ++ [sp]
  | .sliceE x lb lo hi mx rb =>
    markersE x ++ lb :: (markersO lo ++ markersO hi ++ markersO mx ++ [rb])
  | .star p x => p :: markersE x
  | .unary p x => p :: markersE x
  | .mapType p k v => p :: (markersE k ++ markersE v)
  | .arrayType lb l e => lb :: (markersE l ++ markersE e)

def markersL : ExprList → List Nat
  | .nil => []
  | .cons e rest => markersE e ++ markersL rest

def markersO : OExpr → List Nat
  | .none => []
  | .some e => markersE e
end

mutual
/-- Erase every synthetic position marker (set it to `0`), keeping the
structure: two expressions are structurally identical when their erasures are
equal. -/
def eraseE : Expr → Expr
  | .ident nm _ => .ident nm 0
  | .basicLit v _ => .basicLit v 0
  | .binary x _ y => .binary (eraseE x) 0 (eraseE y)
  | .call fn _ args _ => .call (eraseE fn) 0 (eraseL args) 0
  | .compositeLit t _ es _ => .compositeLit (eraseO t) 0 (eraseL es) 0
  | .ellipsisE _ e => .ellipsisE 0 (eraseO e)
  | .funcLit _ => .funcLit 0
  | .indexE x _ i _ => .indexE (eraseE x) 0 (eraseE i) 0
  | .keyValue k c v => .keyValue (eraseO k) c (eraseO v)
  | .paren _ x _ => .paren 0 (eraseE x) 0
  | .selector x _ nm => .selector (eraseE x) 0 nm
  | .sliceE x _ lo hi mx _ => .sliceE (eraseE x) 0 (eraseO lo) (eraseO hi) (eraseO mx) 0
  | .star _ x => .star 0 (eraseE x)
  | .unary _ x => .unary 0 (eraseE x)
  | .mapType _ k v => .mapType 0 (eraseE k) (eraseE v)
  | .arrayType _ l e => .arrayType 0 (eraseE l) (eraseE e)

def eraseL : ExprList → ExprList
  | .nil => .nil
  | .cons e rest => .cons (eraseE e) (eraseL rest)

def eraseO : OExpr → OExpr
  | .none => .none
  | .some e => .some (eraseE e)
end

/-- The key name of a key/value entry (`""` for anything else). -/
def entryName : Expr → String
  | .keyValue (OExpr.some (.ident nm _)) _ _ => nm
  | _ => ""

/-- The key names of a composite literal's entries, in order. -/
def entryNames : ExprList → List String
  | .nil => []
  | .cons e rest => entryName e :: entryNames rest

/-- The value sub-expression of the entry with the given key, if any. -/
def entryValue (nm : String) : ExprList → Option Expr
  | .nil => Option.none
  | .cons e rest =>
    match e with
    | .keyValue (OExpr.some (.ident enm _)) _ (OExpr.some v) =>
      if enm = nm then Option.some v else entryValue nm rest
    | _ => entryValue nm rest

/-- The elements of a composite-literal expression. -/
def eltsOf : Expr → ExprList
  | .compositeLit _ _ es _ => es
  | _ => .nil

/-- The entry names of the top-level literal of a `zeroValue` result. -/
def topEntryNames : Except Abort (OExpr × Nat) → List String
  | .ok (OExpr.some e, _) => entryNames (eltsOf e)
  | _ => []

/-- The top-level literal of a `zeroValue` result, if any. -/
def topLit : Except Abort (OExpr × Nat) → Option Expr
  | .ok (OExpr.some e, _) => Option.some e
  | _ => Option.none

/-- The line-count hint of a `zeroValue` result (`-1`-free: `none` on abort). -/
def topLines : Except Abort (OExpr × Nat) → Option Nat
  | .ok (_, l) => Option.some l
  | _ => Option.none

/-- The entry names of the literal a `zero` call produced, if any. -/
def resEntryNames : Except Abort (OExpr × St) → Option (List String)
  | .ok (OExpr.some e, _) => Option.some (entryNames (eltsOf e))
  | _ => Option.none

/-- The line accumulator after a `zero` call, if it succeeded. -/
def resLines : Except Abort (OExpr × St) → Option Nat
  | .ok (_, s) => Option.some s.lines
  | _ => Option.none

/-- The entry names a struct-loop run emitted, if it succeeded. -/
def loopEntryNames : Except Abort (ExprList × Nat × St) → Option (List String)
  | .ok (es, _, _) => Option.some (entryNames es)
  | _ => Option.none

/-- The elements of the literal a `zero` call produced, if any. -/
def resElts : Except Abort (OExpr × St) → Option ExprList
  | .ok (OExpr.some e, _) => Option.some (eltsOf e)
  | _ => Option.none

/-- The value of the first key/value entry of an element list (used to reach
into map-literal entries, whose keys are not identifiers). -/
def firstEntryValue : ExprList → Option Expr
  | .cons (.keyValue _ _ (OExpr.some v)) _ => Option.some v
  | _ => Option.none

/-- The closing-brace marker of a composite literal. -/
def rbraceOf : Expr → Nat
  | .compositeLit _ _ _ rb => rb
  | _ => 0

/-- The field names that the struct loop of `filler.zero` emits an entry for,
assuming no field's synthesis yields nil and the reuse branch does not fire:
a field is kept iff `(!ok && !imported) || field.Exported()` with
`ok := existing-entry lookup`. -/
def includedNames (ex : List (String × Expr)) (imported : Bool) : FieldList → List String
  | .nil => []
  | .cons nm exported _ rest =>
    if (!(lookupX ex nm).isSome && !imported) || exported
    then nm :: includedNames ex imported rest
    else includedNames ex imported rest

/-- The spec's field-inclusion rule, following the spec's words: a field is
included iff its declaring scope (the scope of the struct's named type, if
any) equals the literal's scope, or the field is externally visible. -/
def specIncludedNames (pkg : Nat) (declPkg : Option Nat) : FieldList → List String
  | .nil => []
  | .cons nm exported _ rest =>
    if (match declPkg with
        | Option.some d => decide (d = pkg)
        | Option.none => true) || exported
    then nm :: specIncludedNames pkg declPkg rest
    else specIncludedNames pkg declPkg rest

/-- No field name of the list has an entry in the existing-entry map. -/
def noneInX (ex : List (String × Expr)) : FieldList → Bool
  | .nil => true
  | .cons nm _ _ rest => !(lookupX ex nm).isSome && noneInX ex rest

/-- All field types are primitive kinds with a non-nil default. -/
def allBasicValid : FieldList → Bool
  | .nil => true
  | .cons _ _ t rest =>
    (match t with
     | .basic .kInvalid => false
     | .basic _ => true
     | _ => false) && allBasicValid rest

/-- Every field default is renderable: at any state, the recursive synthesizer
returns a non-nil expression for the field type, called with the `litInfo` the
struct loop passes (no name, type shown, no pointer indirection). -/
def fieldsRenderable (zf : LitInfo → List Nat → St → Except Abort (OExpr × St))
    (visited : List Nat) : FieldList → Prop
  | .nil => True
  | .cons _ _ ft rest =>
    (∀ s1 : St, ∃ v s2,
        zf { typ := ft, name := Option.none, hideType := false, isPointer := false }
          visited s1 = .ok (OExpr.some v, s2)) ∧
      fieldsRenderable zf visited rest

/-- The expression `filler.zero` emits for a valid primitive kind at counter
value `p`. -/
def basicZeroExpr : BasicKind → Nat → Expr
  | .kBool, p => .ident "false" p
  | .kInt, p => .basicLit "0" p
  | .kUint, p => .basicLit "0" p
  | .kUintptr, p => .basicLit "uintptr(0)" p
  | .kRawPtr, p => .basicLit "unsafe.Pointer(uintptr(0))" p
  | .kFloat, p => .basicLit "0.0" p
  | .kComplex, p => .basicLit "(0 + 0i)" p
  | .kString, p => .basicLit "\"\"" p
  | .kInvalid, p => .basicLit "" p

/-! ### The `byOffset` / `byLine` result surface -/

/-- The data of one composite literal found by the locator: its starting byte
offset, its source-line span, and whether its type's `Underlying()` is a
struct (only those produce output records). -/
structure LitSite where
  startOff : Nat
  startLine : Nat
  endLine : Nat
  isStructLit : Bool
deriving DecidableEq, Repr

/-- Nesting structure of the composite literals of a file (children are the
literals nested inside a literal, in source order). -/
inductive LitTree where
  | node (site : LitSite) (children : List LitTree)

mutual
/-- The `ast.Inspect` walk of `byLine` (lines 507-539): a literal whose line
span covers the queried line and whose type is a struct is processed and not
descended into (`return false`); everything else is descended into
(`return true`).  Returns the processed sites in discovery order. -/
def inspectTree (line : Nat) : LitTree → List LitSite
  | .node site cs =>
    if site.startLine ≤ line ∧ line ≤ site.endLine then
      if site.isStructLit then [site]
      else inspectForest line cs
    else inspectForest line cs

def inspectForest (line : Nat) : List LitTree → List LitSite
  | [] => []
  | t :: ts => inspectTree line t ++ inspectForest line ts
end

mutual
/-- All literal sites of a tree in `ast.Inspect` pre-order. -/
def allSitesTree : LitTree → List LitSite
  | .node site cs => site :: allSitesForest cs

def allSitesForest : List LitTree → List LitSite
  | [] => []
  | t :: ts => allSitesTree t ++ allSitesForest ts
end

/-- One iteration of `byLine`'s reversal loop (lines 547-550):
`outs[i], outs[opp] = outs[opp], outs[i]` with `opp = len(outs)-1-i`. -/
def swapPair (l : List LitSite) (i : Nat) : List LitSite :=
  match l.get? i, l.get? (l.length - 1 - i) with
  | Option.some a, Option.some b => (l.set i b).set (l.length - 1 - i) a
  | _, _ => l

/-- The reversal loop of `byLine`, counting `i` down from `len/2 - 1` to `0`. -/
def revLoop (l : List LitSite) : Nat → List LitSite
  | 0 => l
  | i + 1 => revLoop (swapPair l i) i

/-- `byLine`'s post-processing of the collected records:
`for i := len(outs)/2 - 1; i >= 0; i--` with the pair swap. -/
def byLineOrder (l : List LitSite) : List LitSite := revLoop l (l.length / 2)

/-- The records a line query emits: the discovery walk followed by the
reversal loop. -/
def byLineRecs (line : Nat) (forest : List LitTree) : List LitSite :=
  byLineOrder (inspectForest line forest)

/-- The records a byte-offset query emits on success:
`json.NewEncoder(os.Stdout).Encode([]output{out})` (line 457) — exactly the
one record built for the found literal. -/
def byOffsetRecs (site : LitSite) : List LitSite := [site]

/-! ### Marker-monotonicity bookkeeping -/

/-- Markers drawn from the counter lie in `[lo, hi]` and are non-decreasing in
token order; null (`0`) markers are outside the scheme. -/
def MonoB (lo hi : Nat) (l : List Nat) : Prop :=
  ((l.filter (fun m => decide (0 < m))).Chain' (· ≤ ·)) ∧
    ∀ x ∈ l, x = 0 ∨ (lo ≤ x ∧ x ≤ hi)

/-! ### Concrete scenarios

Small environments exercising the synthesis engine; all are legal Go programs
(see the doc comment of each). -/

/-- `type Address struct { City string; ZIP int }` in package 1. -/
def nAddr : TypeName := ⟨1, "Address", true⟩

/-- `type User struct { ID int; Name string; Addr *Address }` in package 1. -/
def nUser : TypeName := ⟨1, "User", true⟩

def tAddr : Typ :=
  .tstruct 2 (.cons "City" true (.basic .kString) (.cons "ZIP" true (.basic .kInt) .nil))

def tUser : Typ :=
  .tstruct 1 (.cons "ID" true (.basic .kInt)
    (.cons "Name" true (.basic .kString)
      (.cons "Addr" true (.pointer (.named nAddr)) .nil)))

def envUser : Env := [(nAddr, tAddr), (nUser, tUser)]

def infoUser : LitInfo :=
  { typ := tUser, name := Option.some nUser, hideType := false, isPointer := false }

/-- `type Inner struct { x int }` (unexported field), package 1. -/
def nInner : TypeName := ⟨1, "Inner", true⟩

/-- `type Outer struct { x string; In Inner }` (unexported `x`), package 1. -/
def nOuter : TypeName := ⟨1, "Outer", true⟩

def tInner : Typ := .tstruct 4 (.cons "x" false (.basic .kInt) .nil)

def tOuter : Typ :=
  .tstruct 3 (.cons "x" false (.basic .kString) (.cons "In" true (.named nInner) .nil))

def envOuter : Env := [(nInner, tInner), (nOuter, tOuter)]

def infoOuter : LitInfo :=
  { typ := tOuter, name := Option.some nOuter, hideType := false, isPointer := false }

/-- A user-written entry `x: "hi"` of an `Outer` literal (arbitrary original
positions). -/
def kvx : Expr := .keyValue (OExpr.some (.ident "x" 7)) 8 (OExpr.some (.basicLit "\"hi\"" 9))

/-- `type S struct { M map[string]int }` in package 1. -/
def nS : TypeName := ⟨1, "S", true⟩

def tS : Typ := .tstruct 5 (.cons "M" true (.tmap (.basic .kString) (.basic .kInt)) .nil)

def envS : Env := [(nS, tS)]

def infoS : LitInfo :=
  { typ := tS, name := Option.some nS, hideType := false, isPointer := false }

/-- Package 2 declares `type hidden int` (unexported), so `hidden` cannot be
named from package 1. -/
def nHidden : TypeName := ⟨2, "hidden", false⟩

/-- `type M map[hidden]int` — unrenderable from package 1. -/
def nM : TypeName := ⟨1, "M", true⟩

def tM : Typ := .tmap (.named nHidden) (.basic .kInt)

/-- `type A [2]M`. -/
def nA : TypeName := ⟨1, "A", true⟩

def tA : Typ := .array 2 (.named nM)

/-- `type W struct { F map[string]A }` in package 1. -/
def nW : TypeName := ⟨1, "W", true⟩

def tW : Typ := .tstruct 6 (.cons "F" true (.tmap (.basic .kString) (.named nA)) .nil)

def envW : Env := [(nA, tA), (nM, tM), (nHidden, .basic .kInt), (nW, tW)]

def infoW : LitInfo :=
  { typ := tW, name := Option.some nW, hideType := false, isPointer := false }

/-- `type Node struct { Val int; Next *Node }` in package 1 — the
self-referential struct of the spec's termination property. -/
def nNode : TypeName := ⟨1, "Node", true⟩

def tNode : Typ :=
  .tstruct 7 (.cons "Val" true (.basic .kInt)
    (.cons "Next" true (.pointer (.named nNode)) .nil))

def envNode : Env := [(nNode, tNode)]

def infoNode : LitInfo :=
  { typ := tNode, name := Option.some nNode, hideType := false, isPointer := false }

/-- `type RecM map[string]RecM` — a legal Go self-referential named map type
whose cycle passes through no struct. -/
def nRecM : TypeName := ⟨1, "RecM", true⟩

def tRecM : Typ := .tmap (.basic .kString) (.named nRecM)

/-- `type SM struct { F RecM }`. -/
def nSM : TypeName := ⟨1, "SM", true⟩

def tSM : Typ := .tstruct 8 (.cons "F" true (.named nRecM) .nil)

def envRecM : Env := [(nRecM, tRecM), (nSM, tSM)]

def infoSM : LitInfo :=
  { typ := tSM, name := Option.some nSM, hideType := false, isPointer := false }

/-- A user-written entry `ID: (x)` whose parenthesized value carries an old
position marker `99` inside. -/
def kvParen : Expr :=
  .keyValue (OExpr.some (.ident "ID" 2)) 0 (OExpr.some (.paren 3 (.ident "x" 99) 4))


/-- `type V struct { G M }` in package 1 — the exported field `G` has the
unrenderable map type `M`, so its default is nil and the field is dropped. -/
def nV : TypeName := ⟨1, "V", true⟩

def tV : Typ := .tstruct 12 (.cons "G" true (.named nM) .nil)

def envV : Env := [(nM, tM), (nHidden, .basic .kInt), (nV, tV)]

def infoV : LitInfo :=
  { typ := tV, name := Option.some nV, hideType := false, isPointer := false }

/-- The fields of the C1 witness struct `T { A chan int; b []int }`. -/
def fieldsT : FieldList :=
  .cons "A" true .tchan (.cons "b" false (.slice (.basic .kInt)) .nil)

/-- The concrete result of synthesizing `S{}` (`type S struct { M map[string]int }`)
from position `1`: the C4 witness instantiates the amended claim on it. -/
def c4Result : OExpr :=
  OExpr.some (.compositeLit (OExpr.some (.ident "S" 0)) 1
    (.cons (.keyValue (OExpr.some (.ident "M" 2)) 0
      (OExpr.some (.compositeLit
        (OExpr.some (.mapType 2 (.ident "string" 0) (.ident "int" 0))) 2
        (.cons (.keyValue (OExpr.some (.basicLit "\"\"" 3)) 3
          (OExpr.some (.basicLit "0" 3))) .nil) 4))) .nil) 5)

/-- Structural induction over a field list alone (the mutual recursor of
`Typ`/`FieldList` needs no motive on `Typ` here). -/
theorem fieldListInd {motive : FieldList → Prop} (h0 : motive .nil)
    (h1 : ∀ nm e t rest, motive rest → motive (.cons nm e t rest)) :
    ∀ fs, motive fs
  | .nil => h0
  | .cons nm e t rest => h1 nm e t rest (fieldListInd h0 h1 rest)

/-- Structural induction over an expression list alone. -/
theorem exprListInd {motive : ExprList → Prop} (h0 : motive .nil)
    (h1 : ∀ e rest, motive rest → motive (.cons e rest)) :
    ∀ es, motive es
  | .nil => h0
  | .cons e rest => h1 e rest (exprListInd h0 h1 rest)

/-! ## Theorems -/

/-- Synthesizing a valid primitive kind emits its default expression at the
current counter value and leaves the state untouched. -/
theorem zero_basic (env : Env) (pkg : Nat) (ex : List (String × Expr)) (fuel : Nat)
    (k : BasicKind) (nm : Option TypeName) (hd ip : Bool) (vis : List Nat) (s : St)
    (hk : ¬ k = BasicKind.kInvalid) :
    zero env pkg ex (fuel + 1) { typ := .basic k, name := nm, hideType := hd, isPointer := ip }
      vis s = .ok (OExpr.some (basicZeroExpr k s.pos), s) := by
  cases k <;> first | rfl | exact absurd rfl hk

/-- C10: a well-typed positional struct literal (`User{1, "u", nil}` — legal
Go: all fields given positionally) makes `zeroValue` fail the
`e.(*ast.KeyValueExpr)` type assertion while building the existing-entry map:
a run-time panic, not a filled literal and not a recoverable error. -/
theorem claim_C10_assert_panic :
    zeroValue 10 envUser 1
      (.cons (.basicLit "1" 5)
        (.cons (.basicLit "\"u\"" 6) (.cons (.ident "nil" 7) .nil))) infoUser
      = .error .keyAssert := rfl

/-- C2 is false as stated: the two runs below differ only in the existing
first-level entries (`Outer{x: "hi"}` versus `Outer{}`), yet the literal
synthesized for the nested field `In` (a deeper nesting level) differs: with
the entry present, `Inner`'s field `x` is skipped (`!ok` fails for it), so the
nested literal is empty; without it, the nested literal contains `x`. -/
theorem claim_C2_counterexample :
    ((topLit (zeroValue 20 envOuter 1 (.cons kvx .nil) infoOuter)).bind
        (fun e => entryValue "In" (eltsOf e))).map (fun v => entryNames (eltsOf v))
      = Option.some [] ∧
    ((topLit (zeroValue 20 envOuter 1 .nil infoOuter)).bind
        (fun e => entryValue "In" (eltsOf e))).map (fun v => entryNames (eltsOf v))
      = Option.some ["x"] := ⟨rfl, rfl⟩

/-- C4 is false as stated: synthesizing `S{}` (one `map[string]int` field)
yields the token-order marker sequence below, which is not monotonically
non-decreasing — the identifiers created for type names carry the null marker
`0` after non-null markers (`ast.NewIdent` leaves `token.NoPos`). -/
theorem claim_C4_counterexample :
    (topLit (zeroValue 20 envS 1 .nil infoS)).map markersE
      = Option.some [0, 1, 2, 0, 2, 0, 0, 2, 3, 3, 3, 4, 5] ∧
    ¬ ([0, 1, 2, 0, 2, 0, 0, 2, 3, 3, 3, 4, 5] : List Nat).Chain' (· ≤ ·) :=
  ⟨rfl, by simp [List.chain'_cons]⟩

/-- C5 is false as stated: a `map[string]int` literal carries exactly one
entry, so the claim demands the accumulator to grow by `2 + 1 = 3` when it
closes; the code grows it by exactly `2` (`f.lines += 2`), as the final state
`⟨3, 2, false⟩` (lines went from `0` to `2`) shows. -/
theorem claim_C5_counterexample :
    zero envS 1 [] 10
        { typ := .tmap (.basic .kString) (.basic .kInt), name := Option.none,
          hideType := false, isPointer := false } [] ⟨1, 0, false⟩
      = .ok (OExpr.some (.compositeLit
          (OExpr.some (.mapType 1 (.ident "string" 0) (.ident "int" 0))) 1
          (.cons (.keyValue (OExpr.some (.basicLit "\"\"" 2)) 2
            (OExpr.some (.basicLit "0" 2))) .nil) 3),
        ⟨3, 2, false⟩) ∧ (2 : Nat) ≠ 3 := ⟨rfl, by decide⟩

/-- C7 is false as stated: filling `W{}` where `W { F map[string]A }`,
`A = [2]M`, `M = map[hidden]int` and `hidden` is unexported in another
package, the literal synthesized for the array type `A` (declared length `2`)
contains `0` elements: both element defaults are nil (the map key type is
unrenderable) and are skipped. -/
theorem claim_C7_counterexample :
    (((topLit (zeroValue 30 envW 1 .nil infoW)).bind
        (fun e => entryValue "F" (eltsOf e))).bind
        (fun m => (firstEntryValue (eltsOf m)).map (fun a => eltsLen (eltsOf a))))
      = Option.some 0 ∧
    lookupEnv envW nA = Option.some (.array 2 (.named nM)) := ⟨rfl, rfl⟩

/-- C1 is false as stated, and each proviso of the amended claim is necessary:
(i) filling `Node{}` (`Node { Val int; Next *Node }`), the literal synthesized
for the nested revisited occurrence of `Node` carries no entries although both
of `Node`'s fields are exported; (ii) filling `V{}` (`V { G M }` with
`M = map[hidden]int` unrenderable), the exported field `G` gets no entry — its
nil default is dropped; (iii) filling `Outer{x: "hi"}`, the nested `Inner`
literal drops its qualifying unexported field `x` because that name collides
with a first-level entry.  The claim demands one entry per qualifying field
for every struct synthesized at any nesting level. -/
theorem claim_C1_counterexample :
    ((topLit (zeroValue 20 envNode 1 .nil infoNode)).bind
        (fun e => entryValue "Next" (eltsOf e))).map (fun v => entryNames (eltsOf v))
      = Option.some [] ∧
    (topLit (zeroValue 20 envNode 1 .nil infoNode)).map (fun e => entryNames (eltsOf e))
      = Option.some ["Val", "Next"] ∧
    (topLit (zeroValue 20 envV 1 .nil infoV)).map (fun e => entryNames (eltsOf e))
      = Option.some [] ∧
    ((topLit (zeroValue 20 envOuter 1 (.cons kvx .nil) infoOuter)).bind
        (fun e => entryValue "In" (eltsOf e))).map (fun v => entryNames (eltsOf v))
      = Option.some [] := ⟨rfl, rfl, rfl, rfl⟩

/-- C8 is false as stated: reusing the user entry `ID: (x)` (old inner marker
`99`), the renumbering does not descend below the `ParenExpr` — the final tree
still carries the stale marker `99` even though every freshly assigned marker
is at most the closing marker `8`. -/
theorem claim_C8_counterexample :
    topLit (zeroValue 20 envUser 1 (.cons kvParen .nil) infoUser)
      = Option.some (.compositeLit (OExpr.some (.ident "User" 0)) 1
          (.cons (.keyValue (OExpr.some (.ident "ID" 2)) 0
              (OExpr.some (.paren 2 (.ident "x" 99) 4)))
            (.cons (.keyValue (OExpr.some (.ident "Name" 3)) 0
                (OExpr.some (.basicLit "\"\"" 3)))
              (.cons (.keyValue (OExpr.some (.ident "Addr" 4)) 0
                  (OExpr.some (.compositeLit (OExpr.some (.ident "&Address" 0)) 4
                    (.cons (.keyValue (OExpr.some (.ident "City" 5)) 0
                        (OExpr.some (.basicLit "\"\"" 5)))
                      (.cons (.keyValue (OExpr.some (.ident "ZIP" 6)) 0
                          (OExpr.some (.basicLit "0" 6))) .nil)) 7)))
                .nil))) 8) ∧
    99 ∈ markersE (.paren 2 (.ident "x" 99) 4) ∧ (8 : Nat) < 99 :=
  ⟨rfl, by decide, by decide⟩

/-- A struct type whose identity is already on the descent path is rendered as
a literal with no field entries (and an unset closing brace), with the filler
state untouched. -/
theorem zero_struct_revisited (env : Env) (pkg : Nat) (ex : List (String × Expr))
    (fuel sid : Nat) (fields : FieldList) (nm : Option TypeName) (hd ip : Bool)
    (visited : List Nat) (s : St) (ann : OExpr)
    (hann : structTypeName pkg
      { typ := .tstruct sid fields, name := nm, hideType := hd, isPointer := ip } sid fields
      = Option.some ann)
    (hvis : visited.contains sid = true) :
    zero env pkg ex (fuel + 1)
      { typ := .tstruct sid fields, name := nm, hideType := hd, isPointer := ip } visited s
      = .ok (OExpr.some (.compositeLit ann s.pos .nil 0), s) := by
  simp [zero, hann, hvis]
  exact fun h => absurd (by simpa using hvis) h

/-- The synthesis of any type reached from `RecM` (`type RecM map[string]RecM`,
a legal Go type whose reference cycle passes through no struct) exhausts any
amount of fuel: the Go recursion does not terminate on it. -/
theorem recM_zero_oom : ∀ (fuel : Nat) (nm : Option TypeName) (hd ip : Bool)
    (vis : List Nat) (s : St),
    zero envRecM 1 [] fuel
      { typ := Typ.named nRecM, name := nm, hideType := hd, isPointer := ip } vis s
      = .error .oom ∧
    zero envRecM 1 [] fuel
      { typ := tRecM, name := nm, hideType := hd, isPointer := ip } vis s
      = .error .oom := by
  intro fuel
  induction fuel using Nat.strong_induction_on with
  | _ fuel ih =>
    match fuel with
    | 0 => exact fun nm hd ip vis s => ⟨rfl, rfl⟩
    | 1 => exact fun nm hd ip vis s => ⟨rfl, rfl⟩
    | g + 2 =>
      intro nm hd ip vis s
      refine ⟨(ih (g + 1) (by omega) nm hd ip vis s).2, ?_⟩
      have hv := (ih g (by omega) nm true false vis ⟨s.pos + 1, s.lines, s.first⟩).2
      simp only [tRecM, envRecM, nRecM, nSM, tSM] at hv
      simp only [zero, tRecM, typeString, basicName, nRecM, envRecM, nSM, tSM, lookupEnv,
        isStructT, if_true, Bool.false_eq_true, if_false]
      rw [hv]

/-- Filling a literal of `SM { F RecM }` never finishes, whatever the fuel. -/
theorem sm_zeroValue_oom : ∀ fuel, zeroValue fuel envRecM 1 .nil infoSM = .error .oom := by
  intro fuel
  cases fuel with
  | zero => rfl
  | succ f =>
    have hv := (recM_zero_oom f Option.none false false [8] ⟨2, 0, false⟩).1
    simp only [envRecM, nRecM, tRecM, nSM, tSM] at hv
    simp [zeroValue, buildExisting, zero, infoSM, tSM, nSM, tRecM, nRecM, structTypeName,
      typeString, envRecM, lookupEnv, isImported, structLoop, lookupX]
    rw [hv]

/-- C3 is false as stated: there is a type descriptor — the well-typed Go
declaration `type SM struct { F RecM }` with `type RecM map[string]RecM` — on
which the recursive synthesis does not terminate: no amount of fuel makes
`zeroValue` return anything but the out-of-fuel marker, because the recursion
guard only tracks struct types and this cycle passes through none. -/
theorem claim_C3_counterexample :
    ¬ ∃ fuel, zeroValue fuel envRecM 1 .nil infoSM ≠ .error .oom := by
  rintro ⟨fuel, h⟩
  exact h (sm_zeroValue_oom fuel)

/-- C3 (amended): a struct type that already appears among its ancestors on
the current descent path is rendered as a literal with no field entries, and
synthesis of self-referential struct types terminates — shown general for the
re-appearance rendering, and on the spec's self-referential example
`Node { Val int; Next *Node }`, which yields a finite literal whose nested
`Node` occurrence is the empty literal `&Node{}`; however termination does not
extend to every type descriptor (see the counterexample). -/
theorem claim_C3_amended :
    (∀ (env : Env) (pkg : Nat) (ex : List (String × Expr)) (fuel sid : Nat)
        (fields : FieldList) (nm : Option TypeName) (hd ip : Bool)
        (visited : List Nat) (s : St) (ann : OExpr),
      structTypeName pkg
          { typ := .tstruct sid fields, name := nm, hideType := hd, isPointer := ip }
          sid fields = Option.some ann →
      visited.contains sid = true →
      zero env pkg ex (fuel + 1)
          { typ := .tstruct sid fields, name := nm, hideType := hd, isPointer := ip }
          visited s
        = .ok (OExpr.some (.compositeLit ann s.pos .nil 0), s)) ∧
    zeroValue 20 envNode 1 .nil infoNode
      = .ok (OExpr.some (.compositeLit (OExpr.some (.ident "Node" 0)) 1
          (.cons (.keyValue (OExpr.some (.ident "Val" 2)) 0 (OExpr.some (.basicLit "0" 2)))
            (.cons (.keyValue (OExpr.some (.ident "Next" 3)) 0
              (OExpr.some (.compositeLit (OExpr.some (.ident "&Node" 0)) 3 .nil 0)))
              .nil)) 4), 4) :=
  ⟨fun env pkg ex fuel sid fields nm hd ip visited s ann hann hvis =>
    zero_struct_revisited env pkg ex fuel sid fields nm hd ip visited s ann hann hvis,
   rfl⟩

/-- Witness for C3's amended theorem: the nested `Node` occurrence (identity
`7` already on the path) renders as the empty literal `&Node{}`. -/
theorem claim_C3_witness :
    zero envNode 1 [] 4
      { typ := .tstruct 7 (.cons "Val" true (.basic .kInt)
          (.cons "Next" true (.pointer (.named nNode)) .nil)),
        name := Option.some nNode, hideType := false, isPointer := true } [7] ⟨5, 0, false⟩
      = .ok (OExpr.some (.compositeLit (OExpr.some (.ident "&Node" 0)) 5 .nil 0),
          ⟨5, 0, false⟩) :=
  claim_C3_amended.1 envNode 1 [] 3 7
    (.cons "Val" true (.basic .kInt) (.cons "Next" true (.pointer (.named nNode)) .nil))
    (Option.some nNode) false true [7] ⟨5, 0, false⟩
    (OExpr.some (.ident "&Node" 0)) rfl rfl

/-- C5 (amended): when an aggregate literal closes, the line accumulator grows
by `(emitted entries + 2)` for a non-empty struct and by nothing for an empty
struct; by `(emitted elements + 2)` for an array — even when that count is
zero; and by exactly `2` for a map literal (its single entry is not counted,
so the growth is `2`, not `3`). -/
theorem claim_C5_amended :
    (∀ (env : Env) (pkg : Nat) (ex : List (String × Expr)) (fuel : Nat) (kt vt : Typ)
        (nm : Option TypeName) (hd ip : Bool) (vis : List Nat) (s : St) (ks vs : String)
        (ke : OExpr) (s2 : St) (ve : OExpr) (s3 : St),
      typeString pkg kt = Option.some ks →
      typeString pkg vt = Option.some vs →
      zero env pkg ex fuel { typ := kt, name := nm, hideType := true, isPointer := false }
        vis { s with pos := s.pos + 1 } = .ok (ke, s2) →
      zero env pkg ex fuel { typ := vt, name := nm, hideType := true, isPointer := false }
        vis s2 = .ok (ve, s3) →
      resLines (zero env pkg ex (fuel + 1)
          { typ := .tmap kt vt, name := nm, hideType := hd, isPointer := ip } vis s)
        = Option.some (s3.lines + 2)) ∧
    (∀ (env : Env) (pkg : Nat) (ex : List (String × Expr)) (fuel n : Nat) (elem : Typ)
        (nm : Option TypeName) (hd ip : Bool) (vis : List Nat) (s : St) (ann : OExpr)
        (es : ExprList) (s2 : St),
      arrayTypeName pkg { typ := .array n elem, name := nm, hideType := hd, isPointer := ip }
        n elem s.pos = Option.some ann →
      arrayLoop (zero env pkg ex fuel) env elem vis n s = .ok (es, s2) →
      resLines (zero env pkg ex (fuel + 1)
          { typ := .array n elem, name := nm, hideType := hd, isPointer := ip } vis s)
        = Option.some (s2.lines + eltsLen es + 2)) ∧
    (∀ (env : Env) (pkg : Nat) (ex : List (String × Expr)) (fuel sid : Nat)
        (fields : FieldList) (nm : Option TypeName) (hd ip : Bool) (visited : List Nat)
        (s : St) (ann : OExpr) (es : ExprList) (cnt : Nat) (s2 : St),
      structTypeName pkg
          { typ := .tstruct sid fields, name := nm, hideType := hd, isPointer := ip }
          sid fields = Option.some ann →
      visited.contains sid = false →
      structLoop (zero env pkg ex fuel) ex (isImported pkg nm) s.first (visited ++ [sid])
          fields { s with first := false } = .ok (es, cnt, s2) →
      resLines (zero env pkg ex (fuel + 1)
          { typ := .tstruct sid fields, name := nm, hideType := hd, isPointer := ip }
          visited s)
        = Option.some (if 0 < cnt then s2.lines + cnt + 2 else s2.lines)) := by
  refine ⟨?_, ?_, ?_⟩
  · intro env pkg ex fuel kt vt nm hd ip vis s ks vs ke s2 ve s3 hks hvs hke hve
    simp [zero, hks, hvs, hke, hve, resLines]
  · intro env pkg ex fuel n elem nm hd ip vis s ann es s2 hann hloop
    simp [zero, hann, hloop, resLines]
  · intro env pkg ex fuel sid fields nm hd ip visited s ann es cnt s2 hann hvis hloop
    simp only [zero, hann, hvis, Bool.false_eq_true, if_false, hloop]
    by_cases h : 0 < cnt <;> simp [h, resLines]

/-- Witness for C5's amended theorem: a `map[string]int` close grows the
accumulator from `0` to `2`; a `[2]int` close grows it by `2 + 2 = 4`; the
struct `S { M map[string]int }` close grows it from `2` to `2 + 1 + 2 = 5`. -/
theorem claim_C5_witness :
    resLines (zero envS 1 [] 6
        { typ := .tmap (.basic .kString) (.basic .kInt), name := Option.none,
          hideType := false, isPointer := false } [] ⟨1, 0, false⟩)
      = Option.some 2 ∧
    resLines (zero envS 1 [] 6
        { typ := .array 2 (.basic .kInt), name := Option.none,
          hideType := false, isPointer := false } [] ⟨1, 0, false⟩)
      = Option.some 4 ∧
    resLines (zero envS 1 [] 6
        { typ := .tstruct 5 (.cons "M" true (.tmap (.basic .kString) (.basic .kInt)) .nil),
          name := Option.some nS, hideType := false, isPointer := false } [] ⟨1, 0, true⟩)
      = Option.some 5 :=
  ⟨claim_C5_amended.1 envS 1 [] 5 (.basic .kString) (.basic .kInt) Option.none false false
      [] ⟨1, 0, false⟩ "string" "int"
      (OExpr.some (.basicLit "\"\"" 2)) ⟨2, 0, false⟩
      (OExpr.some (.basicLit "0" 2)) ⟨2, 0, false⟩ rfl rfl rfl rfl,
   claim_C5_amended.2.1 envS 1 [] 5 2 (.basic .kInt) Option.none false false [] ⟨1, 0, false⟩
      (OExpr.some (.arrayType 1 (.basicLit "2" 0) (.ident "int" 0)))
      (.cons (.basicLit "0" 2) (.cons (.basicLit "0" 3) .nil)) ⟨3, 0, false⟩ rfl rfl,
   claim_C5_amended.2.2 envS 1 [] 5 5
      (.cons "M" true (.tmap (.basic .kString) (.basic .kInt)) .nil)
      (Option.some nS) false false [] ⟨1, 0, true⟩ (OExpr.some (.ident "S" 0))
      (.cons (.keyValue (OExpr.some (.ident "M" 2)) 0
        (OExpr.some (.compositeLit
          (OExpr.some (.mapType 2 (.ident "string" 0) (.ident "int" 0))) 2
          (.cons (.keyValue (OExpr.some (.basicLit "\"\"" 3)) 3
            (OExpr.some (.basicLit "0" 3))) .nil) 4))) .nil)
      1 ⟨4, 2, false⟩ rfl rfl rfl⟩

/-- C6: a map-typed value with renderable key and value type names synthesizes
to a single-entry literal carrying the explicit `map[K]V` annotation and the
recursively synthesized zero key and value; when either type name is
unrenderable, the map synthesizes to nil (so the enclosing struct loop emits
no entry for the field), and the struct loop's result on the remaining fields
is exactly what it would have been had the map field not existed — synthesis
continues for all other fields. -/
theorem claim_C6_map_fields :
    (∀ (env : Env) (pkg : Nat) (ex : List (String × Expr)) (fuel : Nat) (kt vt : Typ)
        (nm : Option TypeName) (hd ip : Bool) (vis : List Nat) (s : St) (ks vs : String)
        (ke : OExpr) (s2 : St) (ve : OExpr) (s3 : St),
      typeString pkg kt = Option.some ks →
      typeString pkg vt = Option.some vs →
      zero env pkg ex fuel { typ := kt, name := nm, hideType := true, isPointer := false }
        vis { s with pos := s.pos + 1 } = .ok (ke, s2) →
      zero env pkg ex fuel { typ := vt, name := nm, hideType := true, isPointer := false }
        vis s2 = .ok (ve, s3) →
      zero env pkg ex (fuel + 1)
          { typ := .tmap kt vt, name := nm, hideType := hd, isPointer := ip } vis s
        = .ok (OExpr.some (.compositeLit
            (OExpr.some (.mapType s.pos (.ident ks 0) (.ident vs 0))) s.pos
            (.cons (.keyValue ke s2.pos ve) .nil) (s3.pos + 1)),
          { s3 with pos := s3.pos + 1, lines := s3.lines + 2 })) ∧
    (∀ (env : Env) (pkg : Nat) (ex : List (String × Expr)) (fuel : Nat) (kt vt : Typ)
        (nm : Option TypeName) (hd ip : Bool) (vis : List Nat) (s : St),
      typeString pkg kt = Option.none ∨ typeString pkg vt = Option.none →
      zero env pkg ex (fuel + 1)
          { typ := .tmap kt vt, name := nm, hideType := hd, isPointer := ip } vis s
        = .ok (OExpr.none, s)) ∧
    (∀ (env : Env) (pkg : Nat) (ex : List (String × Expr)) (fuel : Nat) (mk mv : Typ)
        (nm : String) (exported : Bool) (rest : FieldList) (imp fst : Bool)
        (vis : List Nat) (s : St),
      lookupX ex nm = Option.none →
      (typeString pkg mk = Option.none ∨ typeString pkg mv = Option.none) →
      structLoop (zero env pkg ex (fuel + 1)) ex imp fst vis
          (.cons nm exported (.tmap mk mv) rest) s
        = structLoop (zero env pkg ex (fuel + 1)) ex imp fst vis rest s) := by
  refine ⟨?_, ?_, ?_⟩
  · intro env pkg ex fuel kt vt nm hd ip vis s ks vs ke s2 ve s3 hks hvs hke hve
    simp [zero, hks, hvs, hke, hve]
  · intro env pkg ex fuel kt vt nm hd ip vis s h
    rcases h with h | h
    · cases hv : typeString pkg vt <;> simp [zero, h, hv]
    · cases hk : typeString pkg kt <;> simp [zero, h, hk]
  · intro env pkg ex fuel mk mv nm exported rest imp fst vis s hlk hbad
    have hnil : zero env pkg ex (fuel + 1)
        { typ := .tmap mk mv, name := Option.none, hideType := false, isPointer := false }
        vis { s with pos := s.pos + 1 } = .ok (OExpr.none, { s with pos := s.pos + 1 }) := by
      rcases hbad with h | h
      · cases hv : typeString pkg mv <;> simp [zero, h, hv]
      · cases hk : typeString pkg mk <;> simp [zero, h, hk]
    cases fst <;> simp [structLoop, hlk, hnil]

/-- Witness for C6: `map[string]int` synthesizes to the single-entry literal
with explicit type names; `map[hidden]int` (unexported foreign key type)
synthesizes to nil; and the struct loop over `{F0 map[hidden]int; G int}`
equals the loop over `{G int}` alone. -/
theorem claim_C6_witness :
    zero envS 1 [] 6
        { typ := .tmap (.basic .kString) (.basic .kInt), name := Option.none,
          hideType := false, isPointer := false } [] ⟨1, 0, false⟩
      = .ok (OExpr.some (.compositeLit
          (OExpr.some (.mapType 1 (.ident "string" 0) (.ident "int" 0))) 1
          (.cons (.keyValue (OExpr.some (.basicLit "\"\"" 2)) 2
            (OExpr.some (.basicLit "0" 2))) .nil) 3), ⟨3, 2, false⟩) ∧
    zero envW 1 [] 6
        { typ := .tmap (.named nHidden) (.basic .kInt), name := Option.none,
          hideType := false, isPointer := false } [] ⟨1, 0, false⟩
      = .ok (OExpr.none, ⟨1, 0, false⟩) ∧
    structLoop (zero envW 1 [] 6) [] false true [6]
        (.cons "F0" true (.tmap (.named nHidden) (.basic .kInt))
          (.cons "G" true (.basic .kInt) .nil)) ⟨2, 0, false⟩
      = structLoop (zero envW 1 [] 6) [] false true [6]
        (.cons "G" true (.basic .kInt) .nil) ⟨2, 0, false⟩ :=
  ⟨claim_C6_map_fields.1 envS 1 [] 5 (.basic .kString) (.basic .kInt) Option.none false false
      [] ⟨1, 0, false⟩ "string" "int"
      (OExpr.some (.basicLit "\"\"" 2)) ⟨2, 0, false⟩
      (OExpr.some (.basicLit "0" 2)) ⟨2, 0, false⟩ rfl rfl rfl rfl,
   claim_C6_map_fields.2.1 envW 1 [] 5 (.named nHidden) (.basic .kInt) Option.none false false
      [] ⟨1, 0, false⟩ (Or.inl rfl),
   claim_C6_map_fields.2.2 envW 1 [] 5 (.named nHidden) (.basic .kInt) "F0" true
      (.cons "G" true (.basic .kInt) .nil) false true [6] ⟨2, 0, false⟩ rfl (Or.inl rfl)⟩

/-- Congruence of the array-element loop under a pointwise-equal synthesis
function, together with preservation of a cleared first-flag. -/
theorem arrayLoop_agree (zf1 zf2 : LitInfo → List Nat → St → Except Abort (OExpr × St))
    (env : Env) (elem : Typ) (visited : List Nat)
    (hz : ∀ i v s, s.first = false → zf1 i v s = zf2 i v s ∧
      (∀ r s', zf1 i v s = .ok (r, s') → s'.first = false)) :
    ∀ (n : Nat) (s : St), s.first = false →
      arrayLoop zf1 env elem visited n s = arrayLoop zf2 env elem visited n s ∧
      (∀ es s', arrayLoop zf1 env elem visited n s = .ok (es, s') → s'.first = false) := by
  intro n
  induction n with
  | zero =>
    intro s hsf
    exact ⟨rfl, fun es s' h => by cases h; exact hsf⟩
  | succ m ih =>
    intro s hsf
    cases hu : underlyingStrict env elem with
    | error a =>
      refine ⟨by simp [arrayLoop, hu], fun es s' h => ?_⟩
      simp [arrayLoop, hu] at h
    | ok u =>
      have h1 := hz { typ := u, name := namedOf elem, hideType := true, isPointer := false }
        visited { s with pos := s.pos + 1 } hsf
      cases hr : zf1 { typ := u, name := namedOf elem, hideType := true, isPointer := false }
          visited { s with pos := s.pos + 1 } with
      | error a =>
        refine ⟨?_, fun es s' h => ?_⟩
        · simp [arrayLoop, hu, hr, ← h1.1]
        · simp [arrayLoop, hu, hr] at h
      | ok p =>
        obtain ⟨r, s2⟩ := p
        have hs2 : s2.first = false := h1.2 r s2 hr
        have h2 := ih s2 hs2
        cases r with
        | none =>
          refine ⟨?_, fun es s' h => ?_⟩
          · simp [arrayLoop, hu, hr, ← h1.1, h2.1]
          · simp only [arrayLoop, hu, hr] at h
            exact h2.2 es s' h
        | some v =>
          refine ⟨?_, fun es s' h => ?_⟩
          · simp [arrayLoop, hu, hr, ← h1.1, h2.1]
          · simp only [arrayLoop, hu, hr] at h
            cases hrest : arrayLoop zf1 env elem visited m s2 with
            | error a => simp [hrest] at h
            | ok q =>
              obtain ⟨es3, s3⟩ := q
              simp only [hrest] at h
              cases h
              exact h2.2 _ _ hrest

/-- With the first-flag cleared, the struct field loop depends on the
existing-entry maps only through which names have entries (their values are
never consulted: the reuse branch requires the flag); the cleared flag is
preserved. -/
theorem structLoop_agree (zf1 zf2 : LitInfo → List Nat → St → Except Abort (OExpr × St))
    (ex1 ex2 : List (String × Expr)) (imported : Bool) (visited : List Nat)
    (hz : ∀ i v s, s.first = false → zf1 i v s = zf2 i v s ∧
      (∀ r s', zf1 i v s = .ok (r, s') → s'.first = false))
    (hk : ∀ nm, (lookupX ex1 nm).isSome = (lookupX ex2 nm).isSome) :
    ∀ (fields : FieldList) (s : St), s.first = false →
      structLoop zf1 ex1 imported false visited fields s
        = structLoop zf2 ex2 imported false visited fields s ∧
      (∀ es cnt s', structLoop zf1 ex1 imported false visited fields s = .ok (es, cnt, s')
        → s'.first = false) := by
  intro fields
  induction fields using fieldListInd with
  | h0 =>
    intro s hsf
    exact ⟨rfl, fun es cnt s' h => by cases h; exact hsf⟩
  | h1 nm exported t rest ih =>
    intro s hsf
    have hcond : ((!(lookupX ex1 nm).isSome && !imported) || exported)
        = ((!(lookupX ex2 nm).isSome && !imported) || exported) := by rw [hk nm]
    cases hC : ((!(lookupX ex1 nm).isSome && !imported) || exported) with
    | false =>
      have h2 := ih s hsf
      refine ⟨?_, fun es cnt s' h => ?_⟩
      · simp only [structLoop, hC, Bool.false_eq_true, if_false, ← hcond, h2.1]
      · simp only [structLoop, hC, Bool.false_eq_true, if_false] at h
        exact h2.2 _ _ _ h
    | true =>
      have h1 := hz { typ := t, name := Option.none, hideType := false, isPointer := false }
        visited { s with pos := s.pos + 1 } hsf
      cases hr : zf1 { typ := t, name := Option.none, hideType := false, isPointer := false }
          visited { s with pos := s.pos + 1 } with
      | error a =>
        refine ⟨?_, fun es cnt s' h => ?_⟩
        · simp only [structLoop, hC, ← hcond, if_true, hr, ← h1.1]
        · simp only [structLoop, hC, if_true, hr] at h
          exact Except.noConfusion h
      | ok p =>
        obtain ⟨r, s2⟩ := p
        have hs2 : s2.first = false := h1.2 r s2 hr
        cases r with
        | none =>
          have h2 := ih { s2 with pos := s2.pos - 1 } hs2
          refine ⟨?_, fun es cnt s' h => ?_⟩
          · simp only [structLoop, hC, ← hcond, if_true, hr, ← h1.1, h2.1]
          · simp only [structLoop, hC, if_true, hr] at h
            exact h2.2 _ _ _ h
        | some v =>
          have h2 := ih s2 hs2
          refine ⟨?_, fun es cnt s' h => ?_⟩
          · simp only [structLoop, hC, ← hcond, if_true, hr, ← h1.1, h2.1]
          · simp only [structLoop, hC, if_true, hr] at h
            cases hrest : structLoop zf1 ex1 imported false visited rest s2 with
            | error a => simp [hrest] at h
            | ok q =>
              obtain ⟨es3, cnt3, s3⟩ := q
              simp only [hrest] at h
              cases h
              exact h2.2 _ _ _ hrest

/-- With the first-flag cleared, `filler.zero` depends on the existing-entry
map only through which names have entries — two maps agreeing on name
membership produce identical output — and the cleared flag stays cleared. -/
theorem zero_ex_agree (env : Env) (pkg : Nat) (ex1 ex2 : List (String × Expr))
    (hk : ∀ nm, (lookupX ex1 nm).isSome = (lookupX ex2 nm).isSome) :
    ∀ (fuel : Nat) (info : LitInfo) (visited : List Nat) (s : St), s.first = false →
      zero env pkg ex1 fuel info visited s = zero env pkg ex2 fuel info visited s ∧
      (∀ r s', zero env pkg ex1 fuel info visited s = .ok (r, s') → s'.first = false) := by
  intro fuel
  induction fuel with
  | zero => exact fun info visited s hsf => ⟨rfl, fun r s' h => Except.noConfusion h⟩
  | succ f ih =>
    intro info visited s hsf
    obtain ⟨ityp, inm, ihd, iip⟩ := info
    cases ityp with
    | basic k => cases k <;> exact ⟨rfl, fun r s' h => by cases h; exact hsf⟩
    | tchan => exact ⟨rfl, fun r s' h => by cases h; exact hsf⟩
    | iface => exact ⟨rfl, fun r s' h => by cases h; exact hsf⟩
    | sig => exact ⟨rfl, fun r s' h => by cases h; exact hsf⟩
    | slice e => exact ⟨rfl, fun r s' h => by cases h; exact hsf⟩
    | tmap kt vt =>
      cases hks : typeString pkg kt with
      | none =>
        refine ⟨by simp [zero, hks], fun r s' h => ?_⟩
        simp only [zero, hks] at h
        cases h; exact hsf
      | some ks =>
        cases hvs : typeString pkg vt with
        | none =>
          refine ⟨by simp [zero, hks, hvs], fun r s' h => ?_⟩
          simp only [zero, hks, hvs] at h
          cases h; exact hsf
        | some vs =>
          have h1 := ih { typ := kt, name := inm, hideType := true, isPointer := false }
            visited { s with pos := s.pos + 1 } hsf
          cases hke : zero env pkg ex1 f
              { typ := kt, name := inm, hideType := true, isPointer := false }
              visited { s with pos := s.pos + 1 } with
          | error a =>
            refine ⟨by simp only [zero, hks, hvs, ← h1.1, hke], fun r s' h => ?_⟩
            simp only [zero, hks, hvs, hke] at h
            exact Except.noConfusion h
          | ok p =>
            obtain ⟨ke, s2⟩ := p
            have hs2 : s2.first = false := h1.2 ke s2 hke
            have h2 := ih { typ := vt, name := inm, hideType := true, isPointer := false }
              visited s2 hs2
            cases hve : zero env pkg ex1 f
                { typ := vt, name := inm, hideType := true, isPointer := false }
                visited s2 with
            | error a =>
              refine ⟨by simp only [zero, hks, hvs, ← h1.1, hke, ← h2.1, hve],
                fun r s' h => ?_⟩
              simp only [zero, hks, hvs, hke, hve] at h
              exact Except.noConfusion h
            | ok q =>
              obtain ⟨ve, s3⟩ := q
              have hs3 : s3.first = false := h2.2 ve s3 hve
              refine ⟨by simp only [zero, hks, hvs, ← h1.1, hke, ← h2.1, hve],
                fun r s' h => ?_⟩
              simp only [zero, hks, hvs, hke, hve] at h
              cases h
              exact hs3
    | array n elem =>
      cases hann : arrayTypeName pkg
          { typ := .array n elem, name := inm, hideType := ihd, isPointer := iip }
          n elem s.pos with
      | none =>
        refine ⟨by simp [zero, hann], fun r s' h => ?_⟩
        simp only [zero, hann] at h
        cases h; exact hsf
      | some ann =>
        have h3 := arrayLoop_agree (zero env pkg ex1 f) (zero env pkg ex2 f) env elem visited
          (fun i v s hs => ih i v s hs) n s hsf
        cases hlp : arrayLoop (zero env pkg ex1 f) env elem visited n s with
        | error a =>
          refine ⟨by simp only [zero, hann, ← h3.1, hlp], fun r s' h => ?_⟩
          simp only [zero, hann, hlp] at h
          exact Except.noConfusion h
        | ok p =>
          obtain ⟨es, s2⟩ := p
          have hs2 : s2.first = false := h3.2 es s2 hlp
          refine ⟨by simp only [zero, hann, ← h3.1, hlp], fun r s' h => ?_⟩
          simp only [zero, hann, hlp] at h
          cases h
          exact hs2
    | named n =>
      cases hlk : lookupEnv env n with
      | none =>
        refine ⟨by simp [zero, hlk], fun r s' h => ?_⟩
        simp only [zero, hlk] at h
        exact Except.noConfusion h
      | some u =>
        cases u with
        | named m =>
          refine ⟨by simp [zero, hlk], fun r s' h => ?_⟩
          simp only [zero, hlk] at h
          exact Except.noConfusion h
        | basic k =>
          have h4 := ih { typ := .basic k, name := inm, hideType := ihd, isPointer := iip }
            visited s hsf
          refine ⟨?_, fun r s' h => ?_⟩
          · simp only [zero, hlk, isStructT, Bool.false_eq_true, if_false]
            exact h4.1
          · simp only [zero, hlk, isStructT, Bool.false_eq_true, if_false] at h
            exact h4.2 r s' h
        | tchan =>
          have h4 := ih { typ := .tchan, name := inm, hideType := ihd, isPointer := iip }
            visited s hsf
          refine ⟨?_, fun r s' h => ?_⟩
          · simp only [zero, hlk, isStructT, Bool.false_eq_true, if_false]
            exact h4.1
          · simp only [zero, hlk, isStructT, Bool.false_eq_true, if_false] at h
            exact h4.2 r s' h
        | iface =>
          have h4 := ih { typ := .iface, name := inm, hideType := ihd, isPointer := iip }
            visited s hsf
          refine ⟨?_, fun r s' h => ?_⟩
          · simp only [zero, hlk, isStructT, Bool.false_eq_true, if_false]
            exact h4.1
          · simp only [zero, hlk, isStructT, Bool.false_eq_true, if_false] at h
            exact h4.2 r s' h
        | tmap kt vt =>
          have h4 := ih { typ := .tmap kt vt, name := inm, hideType := ihd, isPointer := iip }
            visited s hsf
          refine ⟨?_, fun r s' h => ?_⟩
          · simp only [zero, hlk, isStructT, Bool.false_eq_true, if_false]
            exact h4.1
          · simp only [zero, hlk, isStructT, Bool.false_eq_true, if_false] at h
            exact h4.2 r s' h
        | sig =>
          have h4 := ih { typ := .sig, name := inm, hideType := ihd, isPointer := iip }
            visited s hsf
          refine ⟨?_, fun r s' h => ?_⟩
          · simp only [zero, hlk, isStructT, Bool.false_eq_true, if_false]
            exact h4.1
          · simp only [zero, hlk, isStructT, Bool.false_eq_true, if_false] at h
            exact h4.2 r s' h
        | slice e =>
          have h4 := ih { typ := .slice e, name := inm, hideType := ihd, isPointer := iip }
            visited s hsf
          refine ⟨?_, fun r s' h => ?_⟩
          · simp only [zero, hlk, isStructT, Bool.false_eq_true, if_false]
            exact h4.1
          · simp only [zero, hlk, isStructT, Bool.false_eq_true, if_false] at h
            exact h4.2 r s' h
        | array m e =>
          have h4 := ih { typ := .array m e, name := inm, hideType := ihd, isPointer := iip }
            visited s hsf
          refine ⟨?_, fun r s' h => ?_⟩
          · simp only [zero, hlk, isStructT, Bool.false_eq_true, if_false]
            exact h4.1
          · simp only [zero, hlk, isStructT, Bool.false_eq_true, if_false] at h
            exact h4.2 r s' h
        | pointer e =>
          have h4 := ih { typ := .pointer e, name := inm, hideType := ihd, isPointer := iip }
            visited s hsf
          refine ⟨?_, fun r s' h => ?_⟩
          · simp only [zero, hlk, isStructT, Bool.false_eq_true, if_false]
            exact h4.1
          · simp only [zero, hlk, isStructT, Bool.false_eq_true, if_false] at h
            exact h4.2 r s' h
        | tstruct sid fields =>
          have h4 := ih
            { typ := .tstruct sid fields, name := Option.some n,
              hideType := ihd, isPointer := iip }
            visited s hsf
          refine ⟨?_, fun r s' h => ?_⟩
          · simp only [zero, hlk, isStructT, if_true]
            exact h4.1
          · simp only [zero, hlk, isStructT, if_true] at h
            exact h4.2 r s' h
    | pointer elem =>
      cases hu : underlyingStrict env elem with
      | error a =>
        refine ⟨by simp [zero, hu], fun r s' h => ?_⟩
        simp only [zero, hu] at h
        exact Except.noConfusion h
      | ok u =>
        cases hst : isStructT u with
        | true =>
          have h4 := ih { typ := elem, name := inm, hideType := ihd, isPointer := true }
            visited s hsf
          exact ⟨by simp only [zero, hu, hst, if_true]; exact h4.1,
            fun r s' h => h4.2 r s' (by simpa only [zero, hu, hst, if_true] using h)⟩
        | false =>
          refine ⟨by simp [zero, hu, hst], fun r s' h => ?_⟩
          simp only [zero, hu, hst, Bool.false_eq_true, if_false] at h
          cases h; exact hsf
    | tstruct sid fields =>
      cases hann : structTypeName pkg
          { typ := .tstruct sid fields, name := inm, hideType := ihd, isPointer := iip }
          sid fields with
      | none =>
        refine ⟨by simp [zero, hann], fun r s' h => ?_⟩
        simp only [zero, hann] at h
        cases h; exact hsf
      | some ann =>
        cases hvin : visited.contains sid with
        | true =>
          refine ⟨by simp only [zero, hann, hvin, if_pos], fun r s' h => ?_⟩
          simp only [zero, hann] at h
          rw [if_pos hvin] at h
          cases h; exact hsf
        | false =>
          have h3 := structLoop_agree (zero env pkg ex1 f) (zero env pkg ex2 f) ex1 ex2
            (isImported pkg inm) (visited ++ [sid]) (fun i v s hs => ih i v s hs) hk
            fields { s with first := false } rfl
          cases hlp : structLoop (zero env pkg ex1 f) ex1 (isImported pkg inm) false
              (visited ++ [sid]) fields { s with first := false } with
          | error a =>
            refine ⟨?_, fun r s' h => ?_⟩
            · simp only [zero, hann, hvin, Bool.false_eq_true, if_false, hsf, ← h3.1, hlp]
            · simp only [zero, hann, hvin, Bool.false_eq_true, if_false, hsf, hlp] at h
              exact Except.noConfusion h
          | ok p =>
            obtain ⟨es, cnt, s2⟩ := p
            have hs2 : s2.first = false := h3.2 es cnt s2 hlp
            refine ⟨?_, fun r s' h => ?_⟩
            · simp only [zero, hann, hvin, Bool.false_eq_true, if_false, hsf, ← h3.1, hlp]
            · simp only [zero, hann, hvin, Bool.false_eq_true, if_false, hsf, hlp] at h
              by_cases hc : 0 < cnt
              · simp only [hc, if_pos] at h
                cases h
                exact hs2
              · simp only [hc, if_neg] at h
                cases h
                exact hs2

/-- Splitting a `noneInX` fact over a cons cell. -/
theorem noneInX_cons (ex : List (String × Expr)) (nm : String) (e : Bool) (t : Typ)
    (rest : FieldList) (h : noneInX ex (.cons nm e t rest) = true) :
    lookupX ex nm = Option.none ∧ noneInX ex rest = true := by
  simp only [noneInX, Bool.and_eq_true, Bool.not_eq_true'] at h
  exact ⟨Option.not_isSome_iff_eq_none.mp (by simp [h.1]), h.2⟩

/-- Characterization of the struct field loop over primitive-typed fields:
when the reuse branch cannot fire, the loop emits exactly the entries of
`includedNames` (the code's inclusion rule), advances the counter once per
entry and leaves the accumulator alone. -/
theorem structLoop_basic (env : Env) (pkg : Nat) (ex : List (String × Expr)) (fuel : Nat)
    (imported first : Bool) (visited : List Nat) :
    ∀ (fields : FieldList) (s : St),
      allBasicValid fields = true →
      (first = false ∨ noneInX ex fields = true) →
      ∃ es, structLoop (zero env pkg ex (fuel + 1)) ex imported first visited fields s
          = .ok (es, (includedNames ex imported fields).length,
              { s with pos := s.pos + (includedNames ex imported fields).length }) ∧
        entryNames es = includedNames ex imported fields := by
  intro fields
  induction fields using fieldListInd with
  | h0 =>
    intro s _ _
    refine ⟨.nil, ?_, rfl⟩
    simp [structLoop, includedNames]
  | h1 nm exported t rest ih =>
    intro s hb hn
    simp only [allBasicValid, Bool.and_eq_true] at hb
    obtain ⟨hb1, hb2⟩ := hb
    cases t with
    | basic k =>
      have hk : ¬ k = BasicKind.kInvalid := by
        intro hkk; subst hkk; simp at hb1
      have hz := fun (s1 : St) => zero_basic env pkg ex fuel k Option.none false false visited s1 hk
      have harith : s.pos + 1 + (includedNames ex imported rest).length
          = s.pos + ((includedNames ex imported rest).length + 1) := by omega
      have hn' : first = false ∨ noneInX ex rest = true := by
        rcases hn with h | h
        · exact Or.inl h
        · exact Or.inr (noneInX_cons ex nm exported _ rest h).2
      cases hC : ((!(lookupX ex nm).isSome && !imported) || exported) with
      | true =>
        obtain ⟨es', heq, hnm⟩ := ih { s with pos := s.pos + 1 } hb2 hn'
        cases hfst : first with
        | false =>
          subst hfst
          refine ⟨.cons (.keyValue (OExpr.some (.ident nm (s.pos + 1))) 0
            (OExpr.some (basicZeroExpr k (s.pos + 1)))) es', ?_, ?_⟩
          · simp only [structLoop]
            rw [if_pos hC]
            simp only [hz, heq, includedNames]
            rw [if_pos hC]
            simp [harith]
          · simp only [entryNames, entryName, hnm, includedNames]
            rw [if_pos hC]
        | true =>
          subst hfst
          rcases hn with h | h
          · exact absurd h (by simp)
          · have hlk := (noneInX_cons ex nm exported _ rest h).1
            have hC2 := hC
            rw [hlk] at hC2
            refine ⟨.cons (.keyValue (OExpr.some (.ident nm (s.pos + 1))) 0
              (OExpr.some (basicZeroExpr k (s.pos + 1)))) es', ?_, ?_⟩
            · simp only [structLoop, hlk]
              rw [if_pos hC2]
              simp only [hz, heq, includedNames]
              rw [if_pos hC]
              simp [harith]
            · simp only [entryNames, entryName, hnm, includedNames]
              rw [if_pos hC]
      | false =>
        have hCn : ¬ ((!(lookupX ex nm).isSome && !imported) || exported) = true := by
          intro hcc; rw [hcc] at hC; exact Bool.noConfusion hC
        obtain ⟨es', heq, hnm⟩ := ih s hb2 hn'
        cases hfst : first with
        | false =>
          subst hfst
          refine ⟨es', ?_, ?_⟩
          · simp only [structLoop]
            rw [if_neg hCn]
            simp only [heq, includedNames]
            rw [if_neg hCn]
          · simp only [hnm, includedNames]
            rw [if_neg hCn]
        | true =>
          subst hfst
          rcases hn with h | h
          · exact absurd h (by simp)
          · have hlk := (noneInX_cons ex nm exported _ rest h).1
            have hCn2 := hCn
            rw [hlk] at hCn2
            refine ⟨es', ?_, ?_⟩
            · simp only [structLoop, hlk]
              rw [if_neg hCn2]
              simp only [heq, includedNames]
              rw [if_neg hCn]
            · simp only [hnm, includedNames]
              rw [if_neg hCn]
    | tchan => simp at hb1
    | iface => simp at hb1
    | tmap kt vt => simp at hb1
    | sig => simp at hb1
    | slice e => simp at hb1
    | array m e => simp at hb1
    | named m => simp at hb1
    | pointer e => simp at hb1
    | tstruct sid fs => simp at hb1

/-- The empty existing-entry map hits no field name. -/
theorem noneInX_empty : ∀ fields, noneInX [] fields = true := by
  intro fields
  induction fields using fieldListInd with
  | h0 => rfl
  | h1 nm e t rest ih => simp [noneInX, lookupX, ih]

/-- With no existing entries, the code's inclusion rule coincides with the
spec's visibility rule (same declaring scope or exported). -/
theorem includedNames_empty_spec (pkg : Nat) (nm : Option TypeName) :
    ∀ fields, includedNames [] (isImported pkg nm) fields
      = specIncludedNames pkg (Option.map (fun m => m.pkg) nm) fields := by
  intro fields
  induction fields using fieldListInd with
  | h0 => cases nm <;> rfl
  | h1 fnm exported t rest ih =>
    cases nm with
    | none =>
      simp only [isImported, Option.map] at ih ⊢
      cases exported <;> simp [includedNames, specIncludedNames, lookupX, ih]
    | some m =>
      simp only [isImported, Option.map] at ih ⊢
      by_cases h : m.pkg = pkg <;>
        simp [h] at ih <;>
        cases exported <;>
        simp [includedNames, specIncludedNames, lookupX, h, ih]

/-- Unfolding of the struct case of `filler.zero` when the type annotation
resolves and the struct is not a revisited ancestor. -/
theorem zero_struct_notRevisited (env : Env) (pkg : Nat) (ex : List (String × Expr))
    (fuel sid : Nat) (fields : FieldList) (nm : Option TypeName) (hd ip : Bool)
    (visited : List Nat) (s : St) (ann : OExpr)
    (hann : structTypeName pkg
      { typ := .tstruct sid fields, name := nm, hideType := hd, isPointer := ip } sid fields
      = Option.some ann)
    (hvis : visited.contains sid = false) :
    zero env pkg ex (fuel + 1)
        { typ := .tstruct sid fields, name := nm, hideType := hd, isPointer := ip } visited s
      = match structLoop (zero env pkg ex fuel) ex (isImported pkg nm) s.first
          (visited ++ [sid]) fields { s with first := false } with
        | .error a => .error a
        | .ok (es, cnt, s2) =>
          let s3 := if 0 < cnt then { s2 with pos := s2.pos + 1, lines := s2.lines + cnt + 2 }
            else s2
          .ok (OExpr.some (.compositeLit ann s.pos es s3.pos), s3) := by
  simp only [zero, hann, hvis, Bool.false_eq_true, if_false]

/-- With no colliding existing entries, the code's inclusion rule reads the
same as with an empty existing map. -/
theorem includedNames_noneInX_eq_empty (ex : List (String × Expr)) (imported : Bool) :
    ∀ fields, noneInX ex fields = true →
      includedNames ex imported fields = includedNames [] imported fields := by
  intro fields
  induction fields using fieldListInd with
  | h0 => intro _; rfl
  | h1 nm exported t rest ih =>
    intro hn
    have hlk := (noneInX_cons ex nm exported t rest hn).1
    have ih' := ih (noneInX_cons ex nm exported t rest hn).2
    simp [includedNames, hlk, lookupX, ih']

/-- With no colliding existing entries, the code's inclusion rule coincides
with the spec's visibility rule (same declaring scope or exported). -/
theorem includedNames_spec_of_noneInX (pkg : Nat) (nm : Option TypeName)
    (ex : List (String × Expr)) :
    ∀ fields, noneInX ex fields = true →
      includedNames ex (isImported pkg nm) fields
        = specIncludedNames pkg (Option.map (fun m => m.pkg) nm) fields := by
  intro fields hn
  rw [includedNames_noneInX_eq_empty ex (isImported pkg nm) fields hn]
  exact includedNames_empty_spec pkg nm fields

/-- Characterization of the struct field loop over arbitrary field types: when
no field name collides with an existing entry and every field default is
renderable, the loop succeeds and emits exactly the entries of `includedNames`
(the code's inclusion rule), in field order. -/
theorem structLoop_names (zf : LitInfo → List Nat → St → Except Abort (OExpr × St))
    (ex : List (String × Expr)) (imported : Bool) (visited : List Nat) :
    ∀ (fields : FieldList), fieldsRenderable zf visited fields →
      noneInX ex fields = true →
      ∀ (first : Bool) (s : St), ∃ es cnt s',
        structLoop zf ex imported first visited fields s = .ok (es, cnt, s') ∧
        entryNames es = includedNames ex imported fields := by
  intro fields
  induction fields using fieldListInd with
  | h0 =>
    intro _ _ first s
    exact ⟨.nil, 0, s, rfl, rfl⟩
  | h1 nm exported t rest ih =>
    intro hr hn first s
    have hr' : (∀ s1 : St, ∃ v s2,
        zf { typ := t, name := Option.none, hideType := false, isPointer := false }
          visited s1 = .ok (OExpr.some v, s2)) ∧
        fieldsRenderable zf visited rest := hr
    obtain ⟨hr1, hr2⟩ := hr'
    have hlk := (noneInX_cons ex nm exported t rest hn).1
    have hn' := (noneInX_cons ex nm exported t rest hn).2
    cases hC : ((!(lookupX ex nm).isSome && !imported) || exported) with
    | true =>
      obtain ⟨v, s2, hv⟩ := hr1 { s with pos := s.pos + 1 }
      obtain ⟨es', cnt', s', heq, hnm⟩ := ih hr2 hn' first s2
      have hC2 := hC
      rw [hlk] at hC2
      cases hfst : first with
      | false =>
        subst hfst
        refine ⟨.cons (.keyValue (OExpr.some (.ident nm (s.pos + 1))) 0
          (OExpr.some v)) es', cnt' + 1, s', ?_, ?_⟩
        · simp only [structLoop]
          rw [if_pos hC]
          simp only [hv, heq]
        · simp only [entryNames, entryName, hnm, includedNames]
          rw [if_pos hC]
      | true =>
        subst hfst
        refine ⟨.cons (.keyValue (OExpr.some (.ident nm (s.pos + 1))) 0
          (OExpr.some v)) es', cnt' + 1, s', ?_, ?_⟩
        · simp only [structLoop, hlk]
          rw [if_pos hC2]
          simp only [hv, heq]
        · simp only [entryNames, entryName, hnm, includedNames]
          rw [if_pos hC]
    | false =>
      have hCn : ¬ ((!(lookupX ex nm).isSome && !imported) || exported) = true := by
        intro hcc
        rw [hcc] at hC
        exact Bool.noConfusion hC
      obtain ⟨es', cnt', s', heq, hnm⟩ := ih hr2 hn' first s
      cases hfst : first with
      | false =>
        subst hfst
        refine ⟨es', cnt', s', ?_, ?_⟩
        · simp only [structLoop]
          rw [if_neg hCn]
          exact heq
        · simp only [hnm, includedNames]
          rw [if_neg hCn]
      | true =>
        subst hfst
        have hCn2 := hCn
        rw [hlk] at hCn2
        refine ⟨es', cnt', s', ?_, ?_⟩
        · simp only [structLoop, hlk]
          rw [if_neg hCn2]
          exact heq
        · simp only [hnm, includedNames]
          rw [if_neg hCn]

/-- Characterization of the array element loop over an arbitrary element type
whose default is renderable: every iteration appends one element, so the loop
emits exactly its iteration count, and each emitted element is a recursive
default of the element type. -/
theorem arrayLoop_full (zf : LitInfo → List Nat → St → Except Abort (OExpr × St))
    (env : Env) (elem u : Typ) (visited : List Nat)
    (hu : underlyingStrict env elem = .ok u)
    (hrend : ∀ s1 : St, ∃ v s2,
      zf { typ := u, name := namedOf elem, hideType := true, isPointer := false }
        visited s1 = .ok (OExpr.some v, s2)) :
    ∀ (n : Nat) (s : St) (es : ExprList) (s' : St),
      arrayLoop zf env elem visited n s = .ok (es, s') →
      eltsLen es = n ∧ ∀ e ∈ toListE es, ∃ s1 s2,
        zf { typ := u, name := namedOf elem, hideType := true, isPointer := false }
          visited s1 = .ok (OExpr.some e, s2) := by
  intro n
  induction n with
  | zero =>
    intro s es s' h
    cases h
    exact ⟨rfl, fun e he => absurd he (List.not_mem_nil e)⟩
  | succ m ih =>
    intro s es s' h
    obtain ⟨v, s2, hv⟩ := hrend { s with pos := s.pos + 1 }
    simp only [arrayLoop, hu, hv] at h
    cases hrest : arrayLoop zf env elem visited m s2 with
    | error a =>
      simp only [hrest] at h
      exact Except.noConfusion h
    | ok q =>
      obtain ⟨es3, s3⟩ := q
      simp only [hrest] at h
      cases h
      obtain ⟨hlen, hmem⟩ := ih _ _ _ hrest
      refine ⟨by simp [eltsLen, hlen], ?_⟩
      intro e he
      rcases List.mem_cons.mp (by simpa [toListE] using he) with he1 | he2
      · subst he1
        exact ⟨{ s with pos := s.pos + 1 }, s2, hv⟩
      · exact hmem e he2

/-- C1 (amended): a struct type that is not a revisited ancestor, none of
whose field names collides with an existing first-level entry, and all of
whose field defaults are renderable, synthesizes to a literal with exactly one
entry per field satisfying the spec's visibility rule — (declaring scope of
the struct's named type equals the literal's scope) OR (field exported) — in
field order, and no entry for any other field. -/
theorem claim_C1_amended (env : Env) (pkg : Nat) (ex : List (String × Expr))
    (fuel sid : Nat) (fields : FieldList) (nm : Option TypeName) (hd ip : Bool)
    (visited : List Nat) (s : St) (ann : OExpr)
    (hann : structTypeName pkg
      { typ := .tstruct sid fields, name := nm, hideType := hd, isPointer := ip } sid fields
      = Option.some ann)
    (hvis : visited.contains sid = false)
    (hrend : fieldsRenderable (zero env pkg ex fuel) (visited ++ [sid]) fields)
    (hnocol : noneInX ex fields = true) :
    resEntryNames (zero env pkg ex (fuel + 1)
        { typ := .tstruct sid fields, name := nm, hideType := hd, isPointer := ip } visited s)
      = Option.some (specIncludedNames pkg (Option.map (fun m => m.pkg) nm) fields) := by
  obtain ⟨es, cnt, s', heq, hnames⟩ := structLoop_names (zero env pkg ex fuel) ex
    (isImported pkg nm) (visited ++ [sid]) fields hrend hnocol s.first
    { s with first := false }
  rw [zero_struct_notRevisited env pkg ex fuel sid fields nm hd ip visited s ann hann hvis]
  rw [heq]
  rw [← includedNames_spec_of_noneInX pkg nm ex fields hnocol]
  by_cases hc : 0 < cnt <;> simp [hc, resEntryNames, eltsOf, hnames]

/-- Witness for C1's amended theorem: `T { A chan int; b []int }` declared in
package 1 and filled from package 1 with a non-colliding existing entry `Z`
yields exactly the entries `A` and `b` — both fields pass the visibility rule
(same declaring scope) and the chan/slice defaults are renderable `nil`s. -/
theorem claim_C1_witness :
    resEntryNames (zero [] 1 [("Z", kvx)] 5
        { typ := .tstruct 13 fieldsT, name := Option.some ⟨1, "T", true⟩,
          hideType := false, isPointer := false } [] ⟨1, 0, true⟩)
      = Option.some (specIncludedNames 1
          (Option.map (fun m => m.pkg) (Option.some (⟨1, "T", true⟩ : TypeName)))
          fieldsT) :=
  claim_C1_amended [] 1 [("Z", kvx)] 4 13 fieldsT (Option.some ⟨1, "T", true⟩)
    false false [] ⟨1, 0, true⟩ (OExpr.some (.ident "T" 0)) rfl rfl
    ⟨fun s1 => ⟨.ident "nil" s1.pos, s1, rfl⟩,
     fun s1 => ⟨.ident "nil" s1.pos, s1, rfl⟩, trivial⟩ rfl

/-- C2 (amended): below the outermost struct level (first-flag cleared), the
synthesis consults ExistingEntries only through its key set — two maps with
entries for the same names give identical output, so the user's values are
never used at depth — but the inclusion decision does depend on that key set:
over primitive-typed fields the emitted entries are exactly `includedNames`,
whose condition consults the map, so an unexported field of a non-imported
struct is skipped whenever its name has an entry. -/
theorem claim_C2_amended :
    (∀ (env : Env) (pkg : Nat) (ex1 ex2 : List (String × Expr)) (fuel : Nat)
        (info : LitInfo) (visited : List Nat) (s : St),
      (∀ nm, (lookupX ex1 nm).isSome = (lookupX ex2 nm).isSome) →
      s.first = false →
      zero env pkg ex1 fuel info visited s = zero env pkg ex2 fuel info visited s) ∧
    (∀ (env : Env) (pkg : Nat) (ex : List (String × Expr)) (fuel : Nat)
        (imported : Bool) (visited : List Nat) (fields : FieldList) (s : St),
      allBasicValid fields = true →
      loopEntryNames (structLoop (zero env pkg ex (fuel + 1)) ex imported false visited
          fields s)
        = Option.some (includedNames ex imported fields)) :=
  ⟨fun env pkg ex1 ex2 fuel info visited s hk hsf =>
    (zero_ex_agree env pkg ex1 ex2 hk fuel info visited s hsf).1,
   fun env pkg ex fuel imported visited fields s hbasic => by
    obtain ⟨es, heq, hnames⟩ := structLoop_basic env pkg ex fuel imported false visited
      fields s hbasic (Or.inl rfl)
    simp [heq, loopEntryNames, hnames]⟩

/-- Witness for C2's amended theorem: two existing-entry maps binding the same
name `x` to different values produce identical nested synthesis below the
top level, and the loop over `Inner`'s unexported field `x` with `x` bound in
the map emits no entries. -/
theorem claim_C2_witness :
    zero envOuter 1 [("x", kvx)] 10
        { typ := .named nInner, name := Option.none, hideType := false, isPointer := false }
        [3] ⟨2, 0, false⟩
      = zero envOuter 1 [("x", .basicLit "42" 11)] 10
        { typ := .named nInner, name := Option.none, hideType := false, isPointer := false }
        [3] ⟨2, 0, false⟩ ∧
    loopEntryNames (structLoop (zero envOuter 1 [("x", kvx)] 10) [("x", kvx)] false false
        [3, 4] (.cons "x" false (.basic .kInt) .nil) ⟨2, 0, false⟩)
      = Option.some (includedNames [("x", kvx)] false
          (.cons "x" false (.basic .kInt) .nil)) :=
  ⟨claim_C2_amended.1 envOuter 1 [("x", kvx)] [("x", .basicLit "42" 11)] 10
    { typ := .named nInner, name := Option.none, hideType := false, isPointer := false }
    [3] ⟨2, 0, false⟩
    (fun nm => by by_cases h : ("x" = nm) <;> simp [lookupX, h]) rfl,
   claim_C2_amended.2 envOuter 1 [("x", kvx)] 9 false [3, 4]
    (.cons "x" false (.basic .kInt) .nil) ⟨2, 0, false⟩ rfl⟩

/-- Characterization of the array element loop over a valid primitive element
type: each iteration appends the primitive default at the next counter value,
and the accumulator is untouched. -/
theorem arrayLoop_basic (env : Env) (pkg : Nat) (ex : List (String × Expr)) (fuel : Nat)
    (k : BasicKind) (visited : List Nat) (hk : ¬ k = BasicKind.kInvalid) :
    ∀ (n : Nat) (s : St),
      ∃ es, arrayLoop (zero env pkg ex (fuel + 1)) env (.basic k) visited n s
          = .ok (es, { s with pos := s.pos + n }) ∧
        toListE es = (List.range n).map (fun i => basicZeroExpr k (s.pos + 1 + i)) ∧
        eltsLen es = n := by
  intro n
  induction n with
  | zero =>
    intro s
    exact ⟨.nil, by simp [arrayLoop], by simp [toListE], rfl⟩
  | succ m ih =>
    intro s
    obtain ⟨es', heq, hlist, hlen⟩ := ih { s with pos := s.pos + 1 }
    have hz := zero_basic env pkg ex fuel k Option.none true false visited
      { s with pos := s.pos + 1 } hk
    have harith : s.pos + 1 + m = s.pos + (m + 1) := by omega
    refine ⟨.cons (basicZeroExpr k (s.pos + 1)) es', ?_, ?_, ?_⟩
    · simp only [arrayLoop, underlyingStrict, namedOf, hz, heq, harith]
    · rw [List.range_succ_eq_map]
      simp only [toListE, List.map_cons, List.map_map, hlist]
      refine congrArg (fun l => basicZeroExpr k (s.pos + 1) :: l) ?_
      refine List.map_congr_left ?_
      intro i _
      simp only [Function.comp]
      refine congrArg (basicZeroExpr k) ?_
      omega
    · simp [eltsLen, hlen]


/-- Unfolding of the array case of `filler.zero` when the annotation
resolves. -/
theorem zero_array_ann (env : Env) (pkg : Nat) (ex : List (String × Expr))
    (fuel n : Nat) (elem : Typ) (nm : Option TypeName) (hd ip : Bool)
    (visited : List Nat) (s : St) (ann : OExpr)
    (hann : arrayTypeName pkg
      { typ := .array n elem, name := nm, hideType := hd, isPointer := ip }
      n elem s.pos = Option.some ann) :
    zero env pkg ex (fuel + 1)
        { typ := .array n elem, name := nm, hideType := hd, isPointer := ip } visited s
      = match arrayLoop (zero env pkg ex fuel) env elem visited n s with
        | .error a => .error a
        | .ok (es, s2) =>
          let s3 := { s2 with lines := s2.lines + eltsLen es + 2, pos := s2.pos + 1 }
          .ok (OExpr.some (.compositeLit ann s.pos es s3.pos), s3) := by
  simp only [zero, hann]

/-- C7 (amended): a fixed-size array whose element default is renderable (the
recursive synthesis of the underlying element type returns non-nil at every
state) synthesizes to a literal with exactly `n` elements, each a recursive
default of the element type; when element defaults are unrenderable the loop
skips them, so the element count can fall short of the declared length (see
the counterexample). -/
theorem claim_C7_amended (env : Env) (pkg : Nat) (ex : List (String × Expr))
    (fuel n : Nat) (elem u : Typ) (nm : Option TypeName) (hd ip : Bool)
    (visited : List Nat) (s : St) (ann : OExpr) (lb rb : Nat) (es : ExprList) (s' : St)
    (hu : underlyingStrict env elem = .ok u)
    (hrend : ∀ s1 : St, ∃ v s2,
      zero env pkg ex fuel
          { typ := u, name := namedOf elem, hideType := true, isPointer := false }
          visited s1 = .ok (OExpr.some v, s2))
    (h : zero env pkg ex (fuel + 1)
        { typ := .array n elem, name := nm, hideType := hd, isPointer := ip } visited s
      = .ok (OExpr.some (.compositeLit ann lb es rb), s')) :
    eltsLen es = n ∧
      ∀ e ∈ toListE es, ∃ s1 s2,
        zero env pkg ex fuel
            { typ := u, name := namedOf elem, hideType := true, isPointer := false }
            visited s1 = .ok (OExpr.some e, s2) := by
  cases hann : arrayTypeName pkg
      { typ := .array n elem, name := nm, hideType := hd, isPointer := ip } n elem s.pos with
  | none =>
    simp only [zero, hann] at h
    cases h
  | some ann0 =>
    rw [zero_array_ann env pkg ex fuel n elem nm hd ip visited s ann0 hann] at h
    cases hlp : arrayLoop (zero env pkg ex fuel) env elem visited n s with
    | error a =>
      simp only [hlp] at h
      exact Except.noConfusion h
    | ok p =>
      obtain ⟨es0, s2⟩ := p
      simp only [hlp] at h
      cases h
      exact arrayLoop_full (zero env pkg ex fuel) env elem u visited hu hrend n s _ _ hlp

/-- Witness for C7's amended theorem: `[2][]int` synthesizes to exactly two
elements (the two `nil` slice defaults at positions 2 and 3). -/
theorem claim_C7_witness :
    eltsLen (.cons (.ident "nil" 2) (.cons (.ident "nil" 3) .nil)) = 2 :=
  (claim_C7_amended [] 1 [] 4 2 (.slice (.basic .kInt)) (.slice (.basic .kInt))
    Option.none false false [] ⟨1, 0, true⟩
    (OExpr.some (.arrayType 1 (.basicLit "2" 0) (.ident "[]int" 0))) 1 4
    (.cons (.ident "nil" 2) (.cons (.ident "nil" 3) .nil)) ⟨4, 4, true⟩
    rfl (fun s1 => ⟨.ident "nil" s1.pos, s1, rfl⟩) rfl).1

mutual
/-- `fixExprPos` preserves the structure of the expression it renumbers: the
position-erased tree is unchanged. -/
theorem erase_fixE : ∀ (e : Expr) (s : St), eraseE (fixE e s).1 = eraseE e
  | .ident _ _, _ => rfl
  | .basicLit _ _, _ => rfl
  | .binary x _ y, s => by
    have h1 := erase_fixE x s
    have h2 := erase_fixE y (fixE x s).2
    simp only [fixE, eraseE, h1, h2]
  | .call fn _ args _, s => by
    have h1 := erase_fixE fn s
    have h2 := erase_fixL args (fixE fn s).2
    simp only [fixE, eraseE, h1, h2]
  | .compositeLit t _ elts _, s => by
    have h1 := erase_fixO t s
    have h2 := erase_fixElts elts (fixO t s).2
    simp only [fixE, eraseE, h1, h2]
  | .ellipsisE _ _, _ => rfl
  | .funcLit _, _ => rfl
  | .indexE x _ i _, s => by
    have h1 := erase_fixE x s
    have h2 := erase_fixE i (fixE x s).2
    simp only [fixE, eraseE, h1, h2]
  | .keyValue k c v, s => by
    have h1 := erase_fixO k s
    have h2 := erase_fixO v (fixO k s).2
    simp only [fixE, eraseE, h1, h2]
  | .paren _ _ _, _ => rfl
  | .selector x _ _, s => by
    have h1 := erase_fixE x s
    simp only [fixE, eraseE, h1]
  | .sliceE x _ lo hi mx _, s => by
    have h1 := erase_fixE x s
    have h2 := erase_fixO lo (fixE x s).2
    have h3 := erase_fixO hi (fixO lo (fixE x s).2).2
    have h4 := erase_fixO mx (fixO hi (fixO lo (fixE x s).2).2).2
    simp only [fixE, eraseE, h1, h2, h3, h4]
  | .star _ x, s => by
    have h1 := erase_fixE x s
    simp only [fixE, eraseE, h1]
  | .unary _ x, s => by
    have h1 := erase_fixE x s
    simp only [fixE, eraseE, h1]
  | .mapType _ _ _, _ => rfl
  | .arrayType _ _ _, _ => rfl

theorem erase_fixO : ∀ (e : OExpr) (s : St), eraseO (fixO e s).1 = eraseO e
  | .none, _ => rfl
  | .some e, s => by
    have h1 := erase_fixE e s
    simp only [fixO, eraseO, h1]

theorem erase_fixL : ∀ (es : ExprList) (s : St), eraseL (fixL es s).1 = eraseL es
  | .nil, _ => rfl
  | .cons e rest, s => by
    have h1 := erase_fixE e s
    have h2 := erase_fixL rest (fixE e s).2
    simp only [fixL, eraseL, h1, h2]

theorem erase_fixElts : ∀ (es : ExprList) (s : St), eraseL (fixElts es s).1 = eraseL es
  | .nil, _ => rfl
  | .cons e rest, s => by
    have h1 := erase_fixE e { s with pos := s.pos + 1 }
    have h2 := erase_fixElts rest (fixE e { s with pos := s.pos + 1 }).2
    simp only [fixElts, eraseL, h1, h2]
end


/-- C8 (amended): renumbering a reused entry never changes its structure
(only position fields differ), and when the outermost struct level finds a
user-supplied entry for a field, the emitted entry is exactly the
`fixExprPos`-renumbered original — no zero value is re-derived for it.  The
renumbering descends recursively, except below `ParenExpr`, `Ellipsis` and
`FuncLit` nodes (see the counterexample). -/
theorem claim_C8_amended :
    (∀ (e : Expr) (s : St), eraseE (fixE e s).1 = eraseE e) ∧
    (∀ (zf : LitInfo → List Nat → St → Except Abort (OExpr × St))
        (ex : List (String × Expr)) (imported : Bool) (visited : List Nat)
        (nm : String) (exported : Bool) (t : Typ) (rest : FieldList) (s : St) (kv : Expr)
        (es : ExprList) (cnt : Nat) (s3 : St),
      lookupX ex nm = Option.some kv →
      structLoop zf ex imported true visited rest (fixE kv { s with pos := s.pos + 1 }).2
        = .ok (es, cnt, s3) →
      structLoop zf ex imported true visited (.cons nm exported t rest) s
        = .ok (.cons (fixE kv { s with pos := s.pos + 1 }).1 es, cnt + 1, s3) ∧
      eraseE (fixE kv { s with pos := s.pos + 1 }).1 = eraseE kv) :=
  ⟨erase_fixE,
   fun zf ex imported visited nm exported t rest s kv es cnt s3 hlk hrest =>
    ⟨by simp only [structLoop, hlk, hrest], erase_fixE kv { s with pos := s.pos + 1 }⟩⟩

/-- Witness for C8's amended theorem: the entry `ID: (x)` is reused as its
renumbered self with unchanged structure. -/
theorem claim_C8_witness :
    eraseE (fixE kvParen ⟨7, 0, false⟩).1 = eraseE kvParen ∧
    structLoop (zero envUser 1 [("ID", kvParen)] 5) [("ID", kvParen)] false true [1]
        (.cons "ID" true (.basic .kInt) .nil) ⟨1, 0, false⟩
      = .ok (.cons (fixE kvParen ⟨2, 0, false⟩).1 .nil, 1, ⟨2, 0, false⟩) ∧
    eraseE (fixE kvParen ⟨2, 0, false⟩).1 = eraseE kvParen :=
  ⟨claim_C8_amended.1 kvParen ⟨7, 0, false⟩,
   (claim_C8_amended.2 (zero envUser 1 [("ID", kvParen)] 5) [("ID", kvParen)] false [1]
     "ID" true (.basic .kInt) .nil ⟨1, 0, false⟩ kvParen .nil 0 ⟨2, 0, false⟩ rfl rfl).1,
   (claim_C8_amended.2 (zero envUser 1 [("ID", kvParen)] 5) [("ID", kvParen)] false [1]
     "ID" true (.basic .kInt) .nil ⟨1, 0, false⟩ kvParen .nil 0 ⟨2, 0, false⟩ rfl rfl).2⟩

/-- The pair swap preserves the list length. -/
theorem swapPair_length (l : List LitSite) (i : Nat) : (swapPair l i).length = l.length := by
  unfold swapPair
  cases h1 : l.get? i <;> cases h2 : l.get? (l.length - 1 - i) <;> simp

/-- Elementwise description of one pair swap. -/
theorem swapPair_get?_spec (l : List LitSite) (i : Nat) (hi : i < l.length)
    (hne : ¬ i = l.length - 1 - i) (a b : LitSite)
    (ha : l.get? i = Option.some a) (hb : l.get? (l.length - 1 - i) = Option.some b) :
    ∀ m, (swapPair l i).get? m
      = if m = i then Option.some b
        else if m = l.length - 1 - i then Option.some a
        else l.get? m := by
  intro m
  have hop : l.length - 1 - i < l.length := by omega
  unfold swapPair
  rw [ha, hb]
  by_cases h1 : m = i
  · subst h1
    rw [if_pos rfl]
    rw [List.get?_set_ne _ _ (fun hh => hne hh.symm)]
    exact List.get?_set_eq_of_lt _ hi
  · rw [if_neg h1]
    by_cases h2 : m = l.length - 1 - i
    · subst h2
      rw [if_pos rfl]
      rw [List.get?_set_eq_of_lt]
      simp [hi, hop]
    · rw [if_neg h2]
      rw [List.get?_set_ne _ _ (fun hh => h2 hh.symm)]
      exact List.get?_set_ne _ _ (fun hh => h1 hh.symm)

/-- Elementwise description of the reversal loop: after running the loop down
from `k`, the first `k` and last `k` positions hold their mirrored elements. -/
theorem revLoop_get? : ∀ (k : Nat) (l : List LitSite), 2 * k ≤ l.length →
    ∀ j, (revLoop l k).get? j
      = if j < k ∨ (l.length - k ≤ j ∧ j < l.length) then l.get? (l.length - 1 - j)
        else l.get? j := by
  intro k
  induction k with
  | zero =>
    intro l _ j
    rw [revLoop, if_neg (by omega)]
  | succ k ih =>
    intro l hk j
    have hklen : k < l.length := by omega
    have hne : ¬ k = l.length - 1 - k := by omega
    have hop : l.length - 1 - k < l.length := by omega
    obtain ⟨a, ha⟩ : ∃ a, l.get? k = Option.some a := by
      cases h : l.get? k with
      | none => exact absurd (List.get?_eq_none.mp h) (by omega)
      | some a => exact ⟨a, rfl⟩
    obtain ⟨b, hb⟩ : ∃ b, l.get? (l.length - 1 - k) = Option.some b := by
      cases h : l.get? (l.length - 1 - k) with
      | none => exact absurd (List.get?_eq_none.mp h) (by omega)
      | some b => exact ⟨b, rfl⟩
    have hswlen : (swapPair l k).length = l.length := swapPair_length l k
    have hsw := swapPair_get?_spec l k hklen hne a b ha hb
    rw [revLoop]
    rw [ih (swapPair l k) (by omega) j]
    rw [hswlen]
    by_cases h1 : j < k
    · rw [if_pos (Or.inl h1), if_pos (Or.inl (by omega)), hsw, if_neg (by omega),
        if_neg (by omega)]
    · by_cases h2 : j = k
      · subst h2
        rw [if_neg (by omega), if_pos (Or.inl (by omega)), hsw, if_pos rfl, hb]
      · by_cases h3 : j = l.length - 1 - k
        · subst h3
          have he : l.length - 1 - (l.length - 1 - k) = k := by omega
          rw [if_neg (by omega), if_pos (Or.inr (by omega)), hsw,
            if_neg (by omega), if_pos rfl, he, ha]
        · by_cases h4 : l.length - k ≤ j ∧ j < l.length
          · rw [if_pos (Or.inr (by omega)), if_pos (Or.inr (by omega)), hsw,
              if_neg (by omega), if_neg (by omega)]
          · rw [if_neg (by omega), if_neg (by omega), hsw, if_neg h2, if_neg h3]

/-- `byLine`'s swap loop reverses the collected record list. -/
theorem byLineOrder_eq_reverse (l : List LitSite) : byLineOrder l = l.reverse := by
  apply List.ext_get?_iff.mpr
  intro j
  rw [byLineOrder, revLoop_get? (l.length / 2) l (by omega) j]
  by_cases hj : j < l.length
  · rw [List.get?_reverse hj]
    by_cases hc : j < l.length / 2 ∨ (l.length - l.length / 2 ≤ j ∧ j < l.length)
    · rw [if_pos hc]
    · rw [if_neg hc]
      congr 1
      omega
  · have h1 : l.get? j = Option.none := List.get?_eq_none.mpr (by omega)
    have h2 : l.reverse.get? j = Option.none := List.get?_eq_none.mpr (by simp; omega)
    rw [if_neg (by omega), h1, h2]


mutual
/-- The discovery walk emits a subsequence of the pre-order site list. -/
theorem inspectTree_sublist (line : Nat) : ∀ t, (inspectTree line t).Sublist (allSitesTree t)
  | .node site cs => by
    have hf := inspectForest_sublist line cs
    rw [inspectTree, allSitesTree]
    by_cases h1 : site.startLine ≤ line ∧ line ≤ site.endLine
    · rw [if_pos h1]
      cases h2 : site.isStructLit
      · simp only [Bool.false_eq_true, if_false]
        exact hf.cons site
      · simp only [if_true]
        simp [List.singleton_sublist]
    · rw [if_neg h1]
      exact hf.cons site

theorem inspectForest_sublist (line : Nat) :
    ∀ f, (inspectForest line f).Sublist (allSitesForest f)
  | [] => List.Sublist.refl []
  | t :: ts => by
    rw [inspectForest, allSitesForest]
    exact (inspectTree_sublist line t).append (inspectForest_sublist line ts)
end

/-- C9: a successful byte-offset query emits exactly one record; a line query
emits the reversal of the discovery walk (the swap loop is list reversal), so
when the discovery walk lists literals in ascending start-offset order — as
the pre-order file walk does — the emitted records run from the literal
starting last in the file to the one starting first. -/
theorem claim_C9_ordering :
    (∀ site, (byOffsetRecs site).length = 1) ∧
    (∀ l : List LitSite, byLineOrder l = l.reverse) ∧
    (∀ (line : Nat) (forest : List LitTree),
      (allSitesForest forest).Pairwise (fun a b => a.startOff < b.startOff) →
      (byLineRecs line forest).Pairwise (fun a b => b.startOff < a.startOff)) :=
  ⟨fun _ => rfl,
   byLineOrder_eq_reverse,
   fun line forest hsorted => by
    rw [byLineRecs, byLineOrder_eq_reverse]
    rw [List.pairwise_reverse]
    exact (hsorted.sublist (inspectForest_sublist line forest))⟩

/-- Witness for C9: a file with a non-struct literal (offset 10) containing a
struct literal (offset 20), followed by a sibling struct literal (offset 30),
all spanning line 5: discovery finds offsets 20 then 30, and the emitted
order is 30 then 20 — last-starting first. -/
theorem claim_C9_witness :
    byLineRecs 5 [.node ⟨10, 1, 9, false⟩ [.node ⟨20, 2, 8, true⟩ []],
        .node ⟨30, 3, 7, true⟩ []]
      = [⟨30, 3, 7, true⟩, ⟨20, 2, 8, true⟩] ∧
    (byLineRecs 5 [.node ⟨10, 1, 9, false⟩ [.node ⟨20, 2, 8, true⟩ []],
        .node ⟨30, 3, 7, true⟩ []]).Pairwise
      (fun a b => b.startOff < a.startOff) ∧
    (byOffsetRecs ⟨20, 2, 8, true⟩).length = 1 :=
  ⟨rfl,
   claim_C9_ordering.2.2 5
     [.node ⟨10, 1, 9, false⟩ [.node ⟨20, 2, 8, true⟩ []], .node ⟨30, 3, 7, true⟩ []]
     (by simp [allSitesForest, allSitesTree, List.pairwise_cons]),
   claim_C9_ordering.1 ⟨20, 2, 8, true⟩⟩

/-- The empty marker list is trivially bounded-monotone. -/
theorem monoB_nil (lo hi : Nat) : MonoB lo hi [] := ⟨List.chain'_nil, fun x hx => absurd hx (List.not_mem_nil x)⟩

/-- A single in-range marker is bounded-monotone. -/
theorem monoB_single (lo hi p : Nat) (h1 : lo ≤ p) (h2 : p ≤ hi) : MonoB lo hi [p] := by
  refine ⟨?_, ?_⟩
  · by_cases hp : 0 < p <;> simp [List.filter, hp]
  · intro x hx
    simp at hx
    subst hx
    exact Or.inr ⟨h1, h2⟩

/-- A single null marker is bounded-monotone in any range. -/
theorem monoB_zero (lo hi : Nat) : MonoB lo hi [0] := by
  refine ⟨by simp [List.filter], ?_⟩
  intro x hx
  simp at hx
  subst hx
  exact Or.inl rfl

/-- Bounded monotonicity survives widening the range. -/
theorem monoB_weaken (lo hi lo' hi' : Nat) (l : List Nat) (h : MonoB lo hi l)
    (h1 : lo' ≤ lo) (h2 : hi ≤ hi') : MonoB lo' hi' l := by
  refine ⟨h.1, fun x hx => ?_⟩
  rcases h.2 x hx with h0 | ⟨ha, hb⟩
  · exact Or.inl h0
  · exact Or.inr ⟨le_trans h1 ha, le_trans hb h2⟩

/-- Concatenation of bounded-monotone lists over adjacent ranges. -/
theorem monoB_append (lo m m' hi : Nat) (l1 l2 : List Nat)
    (h1 : MonoB lo m l1) (h2 : MonoB m' hi l2)
    (hmm : m ≤ m') (hlo : lo ≤ m') (hmh : m ≤ hi) :
    MonoB lo hi (l1 ++ l2) := by
  refine ⟨?_, ?_⟩
  · rw [List.filter_append]
    rw [List.chain'_append]
    refine ⟨h1.1, h2.1, ?_⟩
    intro x hx y hy
    have hx1 : x ∈ l1.filter (fun m => decide (0 < m)) := List.mem_of_mem_getLast? hx
    have hy1 : y ∈ l2.filter (fun m => decide (0 < m)) := List.mem_of_mem_head? hy
    have hx2 := h1.2 x (List.mem_of_mem_filter hx1)
    have hy2 := h2.2 y (List.mem_of_mem_filter hy1)
    have hx3 : 0 < x := by simpa using (List.of_mem_filter hx1)
    have hy3 : 0 < y := by simpa using (List.of_mem_filter hy1)
    rcases hx2 with h0 | ⟨_, hb⟩
    · omega
    · rcases hy2 with h0' | ⟨ha', _⟩
      · omega
      · omega
  · intro x hx
    rcases List.mem_append.mp hx with h | h
    · rcases h1.2 x h with h0 | ⟨ha, hb⟩
      · exact Or.inl h0
      · exact Or.inr ⟨ha, le_trans hb hmh⟩
    · rcases h2.2 x h with h0 | ⟨ha, hb⟩
      · exact Or.inl h0
      · exact Or.inr ⟨le_trans hlo ha, hb⟩

/-- Prepending a null marker preserves bounded monotonicity. -/
theorem monoB_cons_zero (lo hi : Nat) (l : List Nat) (h : MonoB lo hi l) :
    MonoB lo hi (0 :: l) := by
  refine ⟨?_, ?_⟩
  · simpa [List.filter] using h.1
  · intro x hx
    rcases List.mem_cons.mp hx with h0 | h0
    · exact Or.inl h0
    · exact h.2 x h0


/-- The array element loop keeps the counter non-decreasing and emits
bounded-monotone markers, assuming the element synthesizer does. -/
theorem arrayLoop_mono (zf : LitInfo → List Nat → St → Except Abort (OExpr × St))
    (env : Env) (elem : Typ) (visited : List Nat)
    (hzf : ∀ i v s r s', zf i v s = .ok (r, s') →
      s.pos ≤ s'.pos ∧ MonoB s.pos s'.pos (markersO r)) :
    ∀ (n : Nat) (s : St) (es : ExprList) (s' : St),
      arrayLoop zf env elem visited n s = .ok (es, s') →
      s.pos ≤ s'.pos ∧ MonoB (s.pos + 1) s'.pos (markersL es) := by
  intro n
  induction n with
  | zero =>
    intro s es s' h
    cases h
    exact ⟨le_refl _, monoB_nil _ _⟩
  | succ m ih =>
    intro s es s' h
    cases hu : underlyingStrict env elem with
    | error a =>
      simp only [arrayLoop, hu] at h
      exact Except.noConfusion h
    | ok u =>
      simp only [arrayLoop, hu] at h
      cases hr : zf { typ := u, name := namedOf elem, hideType := true, isPointer := false }
          visited { s with pos := s.pos + 1 } with
      | error a =>
        simp only [hr] at h
        exact Except.noConfusion h
      | ok p =>
        obtain ⟨r, s2⟩ := p
        have hm := hzf _ _ _ _ _ hr
        have h1 : s.pos + 1 ≤ s2.pos := by simpa using hm.1
        have h2 : MonoB (s.pos + 1) s2.pos (markersO r) := by simpa using hm.2
        simp only [hr] at h
        cases r with
        | none =>
          have hih := ih s2 es s' h
          refine ⟨by have := hih.1; omega, ?_⟩
          refine monoB_weaken (s2.pos + 1) s'.pos (s.pos + 1) s'.pos _ hih.2
            (by omega) (le_refl _)
        | some v =>
          cases hrest : arrayLoop zf env elem visited m s2 with
          | error a =>
            simp only [hrest] at h
            exact Except.noConfusion h
          | ok q =>
            obtain ⟨es3, s3⟩ := q
            simp only [hrest] at h
            cases h
            have hih := ih _ _ _ hrest
            refine ⟨by have := hih.1; omega, ?_⟩
            simp only [markersL]
            exact monoB_append (s.pos + 1) s2.pos (s2.pos + 1) _ _ _ h2 hih.2
              (by omega) (by omega) (by have := hih.1; omega)

/-- The struct field loop (with no reused entries) keeps the counter
non-decreasing and emits bounded-monotone markers, assuming the recursive
synthesizer does. -/
theorem structLoop_mono (zf : LitInfo → List Nat → St → Except Abort (OExpr × St))
    (imported first : Bool) (visited : List Nat)
    (hzf : ∀ i v s r s', zf i v s = .ok (r, s') →
      s.pos ≤ s'.pos ∧ MonoB s.pos s'.pos (markersO r)) :
    ∀ (fields : FieldList) (s : St) (es : ExprList) (cnt : Nat) (s' : St),
      structLoop zf [] imported first visited fields s = .ok (es, cnt, s') →
      s.pos ≤ s'.pos ∧ MonoB (s.pos + 1) s'.pos (markersL es) := by
  intro fields
  induction fields using fieldListInd with
  | h0 =>
    intro s es cnt s' h
    cases h
    exact ⟨le_refl _, monoB_nil _ _⟩
  | h1 nm exported t rest ih =>
    intro s es cnt s' h
    have hred : structLoop zf [] imported first visited (.cons nm exported t rest) s
        = if (!(lookupX [] nm).isSome && !imported) || exported then
            match zf { typ := t, name := Option.none, hideType := false, isPointer := false }
                visited { s with pos := s.pos + 1 } with
            | .error a => .error a
            | .ok (OExpr.some v, s2) =>
              match structLoop zf [] imported first visited rest s2 with
              | .ok (es2, cnt2, s3) =>
                .ok (.cons (.keyValue (OExpr.some (.ident nm (s.pos + 1))) 0
                  (OExpr.some v)) es2, cnt2 + 1, s3)
              | .error a => .error a
            | .ok (OExpr.none, s2) =>
              structLoop zf [] imported first visited rest
                { s2 with pos := s2.pos - 1 }
          else structLoop zf [] imported first visited rest s := by
      cases first <;> rfl
    rw [hred] at h
    by_cases hC : ((!(lookupX [] nm).isSome && !imported) || exported) = true
    · rw [if_pos hC] at h
      cases hr : zf { typ := t, name := Option.none, hideType := false, isPointer := false }
          visited { s with pos := s.pos + 1 } with
      | error a =>
        simp only [hr] at h
        exact Except.noConfusion h
      | ok p =>
        obtain ⟨r, s2⟩ := p
        have hm := hzf _ _ _ _ _ hr
        have h1 : s.pos + 1 ≤ s2.pos := by simpa using hm.1
        have h2 : MonoB (s.pos + 1) s2.pos (markersO r) := by simpa using hm.2
        simp only [hr] at h
        cases r with
        | none =>
          have hih := ih { s2 with pos := s2.pos - 1 } es cnt s' h
          have h3 : s2.pos - 1 ≤ s'.pos := by simpa using hih.1
          have h4 : MonoB (s2.pos - 1 + 1) s'.pos (markersL es) := by simpa using hih.2
          refine ⟨by omega, ?_⟩
          exact monoB_weaken _ s'.pos (s.pos + 1) s'.pos _ h4 (by omega) (le_refl _)
        | some v =>
          cases hrest : structLoop zf [] imported first visited rest s2 with
          | error a =>
            simp only [hrest] at h
            exact Except.noConfusion h
          | ok q =>
            obtain ⟨es3, cnt3, s3⟩ := q
            simp only [hrest] at h
            cases h
            have hih := ih _ _ _ _ hrest
            refine ⟨by have := hih.1; omega, ?_⟩
            simp only [markersL, markersE, markersO]
            have hkv : MonoB (s.pos + 1) s2.pos ([s.pos + 1] ++ 0 :: markersE v) :=
              monoB_append (s.pos + 1) (s.pos + 1) (s.pos + 1) s2.pos _ _
                (monoB_single _ _ _ (le_refl _) (le_refl _))
                (monoB_cons_zero _ _ _ h2) (le_refl _) (le_refl _) (by omega)
            refine monoB_append (s.pos + 1) s2.pos (s2.pos + 1) _ _ _ ?_ hih.2
              (by omega) (by omega) (by have := hih.1; omega)
            simpa using hkv
    · rw [if_neg hC] at h
      have hih := ih s es cnt s' h
      exact ⟨hih.1, hih.2⟩

/-- Prepending an in-range marker below the list range. -/
theorem monoB_cons (lo p hi : Nat) (l : List Nat) (h1 : lo ≤ p) (h2 : p ≤ hi)
    (h : MonoB p hi l) : MonoB lo hi (p :: l) := by
  have := monoB_append lo p p hi [p] l (monoB_single lo p p h1 (le_refl p)) h
    (le_refl p) h1 h2
  simpa using this

/-- Prepending a list of null markers preserves bounded monotonicity. -/
theorem monoB_allzero_append (lo hi : Nat) (l1 l2 : List Nat)
    (h1 : ∀ x ∈ l1, x = 0) (h2 : MonoB lo hi l2) : MonoB lo hi (l1 ++ l2) := by
  refine ⟨?_, ?_⟩
  · have hf : l1.filter (fun m => decide (0 < m)) = [] := by
      rw [List.filter_eq_nil_iff]
      intro a ha
      simp [h1 a ha]
    rw [List.filter_append, hf, List.nil_append]
    exact h2.1
  · intro x hx
    rcases List.mem_append.mp hx with hx1 | hx2
    · exact Or.inl (h1 x hx1)
    · exact h2.2 x hx2

/-- The central C4 invariant: a successful synthesis with no reused entries
never decreases the position counter, and the pre-order marker sequence of the
result is bounded-monotone between the initial and final counter values (null
markers from `ast.NewIdent` set aside). -/
theorem zero_mono (env : Env) (pkg : Nat) :
    ∀ (fuel : Nat) (info : LitInfo) (visited : List Nat) (s : St) (r : OExpr) (s' : St),
      zero env pkg [] fuel info visited s = .ok (r, s') →
      s.pos ≤ s'.pos ∧ MonoB s.pos s'.pos (markersO r) := by
  intro fuel
  induction fuel with
  | zero => exact fun info visited s r s' h => Except.noConfusion h
  | succ f ih =>
    intro info visited s r s' h
    obtain ⟨ityp, inm, ihd, iip⟩ := info
    cases ityp with
    | basic k =>
      cases k <;> cases h <;>
        first
        | exact ⟨le_refl _, monoB_single _ _ _ (le_refl _) (le_refl _)⟩
        | exact ⟨le_refl _, monoB_nil _ _⟩
    | tchan =>
      cases h
      exact ⟨le_refl _, monoB_single _ _ _ (le_refl _) (le_refl _)⟩
    | iface =>
      cases h
      exact ⟨le_refl _, monoB_single _ _ _ (le_refl _) (le_refl _)⟩
    | sig =>
      cases h
      exact ⟨le_refl _, monoB_single _ _ _ (le_refl _) (le_refl _)⟩
    | slice e =>
      cases h
      exact ⟨le_refl _, monoB_single _ _ _ (le_refl _) (le_refl _)⟩
    | tmap kt vt =>
      cases hks : typeString pkg kt with
      | none =>
        simp only [zero, hks] at h
        cases h
        exact ⟨le_refl _, monoB_nil _ _⟩
      | some ks =>
        cases hvs : typeString pkg vt with
        | none =>
          simp only [zero, hks, hvs] at h
          cases h
          exact ⟨le_refl _, monoB_nil _ _⟩
        | some vs =>
          simp only [zero, hks, hvs] at h
          cases hke : zero env pkg [] f
              { typ := kt, name := inm, hideType := true, isPointer := false }
              visited { s with pos := s.pos + 1 } with
          | error a =>
            simp only [hke] at h
            exact Except.noConfusion h
          | ok p =>
            obtain ⟨ke, s2⟩ := p
            have hm1 := ih _ _ _ _ _ hke
            have h11 : s.pos + 1 ≤ s2.pos := by simpa using hm1.1
            have h12 : MonoB (s.pos + 1) s2.pos (markersO ke) := by simpa using hm1.2
            simp only [hke] at h
            cases hve : zero env pkg [] f
                { typ := vt, name := inm, hideType := true, isPointer := false }
                visited s2 with
            | error a =>
              simp only [hve] at h
              exact Except.noConfusion h
            | ok q =>
              obtain ⟨ve, s3⟩ := q
              have hm2 := ih _ _ _ _ _ hve
              simp only [hve] at h
              cases h
              refine ⟨show s.pos ≤ s3.pos + 1 by have := hm2.1; omega, ?_⟩
              have hA : MonoB s2.pos (s3.pos + 1) (markersO ve ++ [s3.pos + 1]) :=
                monoB_append s2.pos s3.pos (s3.pos + 1) (s3.pos + 1) _ _ hm2.2
                  (monoB_single _ _ _ (le_refl _) (le_refl _))
                  (by omega) (by have := hm2.1; omega) (by omega)
              have hB : MonoB (s.pos + 1) (s3.pos + 1)
                  (markersO ke ++ s2.pos :: (markersO ve ++ [s3.pos + 1])) :=
                monoB_append (s.pos + 1) s2.pos s2.pos (s3.pos + 1) _ _ h12
                  (monoB_cons s2.pos s2.pos (s3.pos + 1) _ (le_refl _)
                    (by have := hm2.1; omega) hA)
                  (le_refl _) (by omega) (by have := hm2.1; omega)
              have hC : MonoB s.pos (s3.pos + 1)
                  (s.pos :: (markersO ke ++ s2.pos :: (markersO ve ++ [s3.pos + 1]))) :=
                monoB_cons s.pos s.pos (s3.pos + 1) _ (le_refl _) (by omega)
                  (monoB_weaken (s.pos + 1) (s3.pos + 1) s.pos (s3.pos + 1) _ hB
                    (by omega) (le_refl _))
              have hD : MonoB s.pos (s3.pos + 1)
                  (s.pos :: 0 :: 0 ::
                    (s.pos :: (markersO ke ++ s2.pos :: (markersO ve ++ [s3.pos + 1])))) :=
                monoB_cons s.pos s.pos (s3.pos + 1) _ (le_refl _) (by omega)
                  (monoB_cons_zero _ _ _ (monoB_cons_zero _ _ _ hC))
              simpa [markersO, markersE, markersL] using hD
    | array n elem =>
      by_cases hhd : ihd = true
      · subst hhd
        simp only [zero, arrayTypeName, if_true] at h
        cases hlp : arrayLoop (zero env pkg [] f) env elem visited n s with
        | error a =>
          simp only [hlp] at h
          exact Except.noConfusion h
        | ok p =>
          obtain ⟨es, s2⟩ := p
          have hq := arrayLoop_mono (zero env pkg [] f) env elem visited
            (fun i v s r s' hh => ih i v s r s' hh) n s es s2 hlp
          simp only [hlp] at h
          cases h
          have hq1 : s.pos ≤ s2.pos := by simpa using hq.1
          have hq2 : MonoB (s.pos + 1) s2.pos (markersL es) := by simpa using hq.2
          refine ⟨show s.pos ≤ s2.pos + 1 by omega, ?_⟩
          have hA : MonoB (s.pos + 1) (s2.pos + 1) (markersL es ++ [s2.pos + 1]) :=
            monoB_append (s.pos + 1) s2.pos (s2.pos + 1) (s2.pos + 1) _ _ hq2
              (monoB_single _ _ _ (le_refl _) (le_refl _))
              (by omega) (by omega) (by omega)
          have hB : MonoB s.pos (s2.pos + 1) (s.pos :: (markersL es ++ [s2.pos + 1])) :=
            monoB_cons s.pos s.pos (s2.pos + 1) _ (le_refl _) (by omega)
              (monoB_weaken (s.pos + 1) (s2.pos + 1) s.pos _ _ hA (by omega) (le_refl _))
          simpa [markersO, markersE, markersL] using hB
      · have hhd' : ihd = false := by cases ihd <;> simp_all
        subst hhd'
        cases hen : typeString pkg elem with
        | none =>
          simp only [zero, arrayTypeName, Bool.false_eq_true, if_false, hen] at h
          cases h
          exact ⟨le_refl _, monoB_nil _ _⟩
        | some en =>
          simp only [zero, arrayTypeName, Bool.false_eq_true, if_false, hen] at h
          cases hlp : arrayLoop (zero env pkg [] f) env elem visited n s with
          | error a =>
            simp only [hlp] at h
            exact Except.noConfusion h
          | ok p =>
            obtain ⟨es, s2⟩ := p
            have hq := arrayLoop_mono (zero env pkg [] f) env elem visited
              (fun i v s r s' hh => ih i v s r s' hh) n s es s2 hlp
            simp only [hlp] at h
            cases h
            have hq1 : s.pos ≤ s2.pos := by simpa using hq.1
            have hq2 : MonoB (s.pos + 1) s2.pos (markersL es) := by simpa using hq.2
            refine ⟨show s.pos ≤ s2.pos + 1 by omega, ?_⟩
            have hA : MonoB (s.pos + 1) (s2.pos + 1) (markersL es ++ [s2.pos + 1]) :=
              monoB_append (s.pos + 1) s2.pos (s2.pos + 1) (s2.pos + 1) _ _ hq2
                (monoB_single _ _ _ (le_refl _) (le_refl _))
                (by omega) (by omega) (by omega)
            have hB : MonoB s.pos (s2.pos + 1) (s.pos :: (markersL es ++ [s2.pos + 1])) :=
              monoB_cons s.pos s.pos (s2.pos + 1) _ (le_refl _) (by omega)
                (monoB_weaken (s.pos + 1) (s2.pos + 1) s.pos _ _ hA (by omega) (le_refl _))
            have hD : MonoB s.pos (s2.pos + 1)
                (s.pos :: 0 :: 0 :: (s.pos :: (markersL es ++ [s2.pos + 1]))) :=
              monoB_cons s.pos s.pos (s2.pos + 1) _ (le_refl _) (by omega)
                (monoB_cons_zero _ _ _ (monoB_cons_zero _ _ _ hB))
            simpa [markersO, markersE, markersL] using hD
    | named n =>
      cases hlk : lookupEnv env n with
      | none =>
        simp only [zero, hlk] at h
        exact Except.noConfusion h
      | some u =>
        cases u with
        | named m =>
          simp only [zero, hlk] at h
          exact Except.noConfusion h
        | basic k =>
          simp only [zero, hlk, isStructT, Bool.false_eq_true, if_false] at h
          exact ih _ _ _ _ _ h
        | tchan =>
          simp only [zero, hlk, isStructT, Bool.false_eq_true, if_false] at h
          exact ih _ _ _ _ _ h
        | iface =>
          simp only [zero, hlk, isStructT, Bool.false_eq_true, if_false] at h
          exact ih _ _ _ _ _ h
        | tmap kt vt =>
          simp only [zero, hlk, isStructT, Bool.false_eq_true, if_false] at h
          exact ih _ _ _ _ _ h
        | sig =>
          simp only [zero, hlk, isStructT, Bool.false_eq_true, if_false] at h
          exact ih _ _ _ _ _ h
        | slice e =>
          simp only [zero, hlk, isStructT, Bool.false_eq_true, if_false] at h
          exact ih _ _ _ _ _ h
        | array m e =>
          simp only [zero, hlk, isStructT, Bool.false_eq_true, if_false] at h
          exact ih _ _ _ _ _ h
        | pointer e =>
          simp only [zero, hlk, isStructT, Bool.false_eq_true, if_false] at h
          exact ih _ _ _ _ _ h
        | tstruct sid fields =>
          simp only [zero, hlk, isStructT, if_true] at h
          exact ih _ _ _ _ _ h
    | pointer elem =>
      cases hu : underlyingStrict env elem with
      | error a =>
        simp only [zero, hu] at h
        exact Except.noConfusion h
      | ok u =>
        cases hst : isStructT u with
        | true =>
          simp only [zero, hu, hst, if_true] at h
          exact ih _ _ _ _ _ h
        | false =>
          simp only [zero, hu, hst, Bool.false_eq_true, if_false] at h
          cases h
          exact ⟨le_refl _, monoB_single _ _ _ (le_refl _) (le_refl _)⟩
    | tstruct sid fields =>
      cases hann : structTypeName pkg
          { typ := .tstruct sid fields, name := inm, hideType := ihd, isPointer := iip }
          sid fields with
      | none =>
        simp only [zero, hann] at h
        cases h
        exact ⟨le_refl _, monoB_nil _ _⟩
      | some ann =>
        have hannZ : ∀ x ∈ markersO ann, x = 0 := by
          simp only [structTypeName] at hann
          by_cases hh : ihd = true
          · rw [if_pos hh] at hann
            cases hann
            intro x hx
            exact absurd hx (List.not_mem_nil x)
          · rw [if_neg hh] at hann
            cases inm with
            | some nmm =>
              cases hts : typeString pkg (.named nmm) with
              | none =>
                simp only [hts] at hann
                exact Option.noConfusion hann
              | some tn =>
                simp only [hts] at hann
                cases hann
                intro x hx
                simpa [markersO, markersE] using hx
            | none =>
              cases hts : typeString pkg (.tstruct sid fields) with
              | none =>
                simp only [hts] at hann
                exact Option.noConfusion hann
              | some tn =>
                simp only [hts] at hann
                cases hann
                intro x hx
                simpa [markersO, markersE] using hx
        cases hvin : visited.contains sid with
        | true =>
          simp only [zero, hann] at h
          rw [if_pos hvin] at h
          cases h
          have hB : MonoB s.pos s.pos (s.pos :: ([] ++ [0])) :=
            monoB_cons s.pos s.pos s.pos _ (le_refl _) (le_refl _) (monoB_zero _ _)
          have hD : MonoB s.pos s.pos (markersO ann ++ s.pos :: ([] ++ [0])) :=
            monoB_allzero_append _ _ _ _ hannZ hB
          exact ⟨le_refl _, by simpa [markersO, markersE, markersL] using hD⟩
        | false =>
          simp only [zero, hann, hvin, Bool.false_eq_true, if_false] at h
          cases hlp : structLoop (zero env pkg [] f) [] (isImported pkg inm) s.first
              (visited ++ [sid]) fields { s with first := false } with
          | error a =>
            simp only [hlp] at h
            exact Except.noConfusion h
          | ok p =>
            obtain ⟨es, cnt, s2⟩ := p
            have hq := structLoop_mono (zero env pkg [] f) (isImported pkg inm) s.first
              (visited ++ [sid]) (fun i v s r s' hh => ih i v s r s' hh) fields
              { s with first := false } es cnt s2 hlp
            have hq1 : s.pos ≤ s2.pos := by simpa using hq.1
            have hq2 : MonoB (s.pos + 1) s2.pos (markersL es) := by simpa using hq.2
            simp only [hlp] at h
            by_cases hc : 0 < cnt
            · rw [if_pos hc] at h
              cases h
              refine ⟨show s.pos ≤ s2.pos + 1 by omega, ?_⟩
              have hA : MonoB (s.pos + 1) (s2.pos + 1) (markersL es ++ [s2.pos + 1]) :=
                monoB_append (s.pos + 1) s2.pos (s2.pos + 1) (s2.pos + 1) _ _ hq2
                  (monoB_single _ _ _ (le_refl _) (le_refl _))
                  (by omega) (by omega) (by omega)
              have hB : MonoB s.pos (s2.pos + 1)
                  (s.pos :: (markersL es ++ [s2.pos + 1])) :=
                monoB_cons s.pos s.pos (s2.pos + 1) _ (le_refl _) (by omega)
                  (monoB_weaken (s.pos + 1) (s2.pos + 1) s.pos _ _ hA (by omega)
                    (le_refl _))
              have hD := monoB_allzero_append s.pos (s2.pos + 1) (markersO ann) _ hannZ hB
              exact by simpa [markersO, markersE, markersL] using hD
            · rw [if_neg hc] at h
              cases h
              refine ⟨hq1, ?_⟩
              have hA : MonoB s.pos s'.pos (s.pos :: (markersL es ++ [s'.pos])) := by
                by_cases hsp : s.pos + 1 ≤ s'.pos
                · have hA1 : MonoB (s.pos + 1) s'.pos (markersL es ++ [s'.pos]) :=
                    monoB_append (s.pos + 1) s'.pos s'.pos s'.pos _ _ hq2
                      (monoB_single _ _ _ (le_refl _) (le_refl _))
                      (le_refl _) hsp (le_refl _)
                  exact monoB_cons s.pos s.pos s'.pos _ (le_refl _) hq1
                    (monoB_weaken (s.pos + 1) s'.pos s.pos _ _ hA1 (by omega) (le_refl _))
                · have hz : ∀ x ∈ markersL es, x = 0 := by
                    intro x hx
                    rcases hq2.2 x hx with h0 | hb
                    · exact h0
                    · omega
                  have hA1 : MonoB s.pos s'.pos (markersL es ++ [s'.pos]) :=
                    monoB_allzero_append _ _ _ _ hz
                      (monoB_single _ _ _ hq1 (le_refl _))
                  exact monoB_cons s.pos s.pos s'.pos _ (le_refl _) hq1 hA1
              have hD := monoB_allzero_append s.pos s'.pos (markersO ann) _ hannZ hA
              exact by simpa [markersO, markersE, markersL] using hD

/-- C4 (amended): over one successful synthesis invocation with no reused
entries, the position counter never decreases end-to-end, and the markers that
were actually drawn from it are non-decreasing in rendered token order — once
the null markers (`token.NoPos`, carried by every identifier the synthesizer
builds with `ast.NewIdent` and by array length literals) are set aside — and
each lies between the counter's initial and final values.  The original claim
is false: the full token-order marker sequence is not monotone (see the
counterexample), and with reused entries the counter itself can decrease
(`f.pos--`). -/
theorem claim_C4_amended (env : Env) (pkg : Nat) (fuel : Nat) (info : LitInfo)
    (visited : List Nat) (s : St) (r : OExpr) (s' : St)
    (h : zero env pkg [] fuel info visited s = .ok (r, s')) :
    s.pos ≤ s'.pos ∧
      (((markersO r).filter fun m => decide (0 < m)).Chain' (· ≤ ·)) ∧
      ∀ x ∈ markersO r, x = 0 ∨ (s.pos ≤ x ∧ x ≤ s'.pos) := by
  have hm := zero_mono env pkg fuel info visited s r s' h
  exact ⟨hm.1, hm.2.1, hm.2.2⟩

/-- Witness for C4 (amended): the `S{}` synthesis of the counterexample,
started at position `1` and ending at position `5`, satisfies the amended
invariant. -/
theorem claim_C4_witness :
    (1 : Nat) ≤ (5 : Nat) ∧
      (((markersO c4Result).filter fun m => decide (0 < m)).Chain' (· ≤ ·)) ∧
      ∀ x ∈ markersO c4Result, x = 0 ∨ (1 ≤ x ∧ x ≤ 5) :=
  claim_C4_amended envS 1 20 infoS [] ⟨1, 0, true⟩ c4Result ⟨5, 5, false⟩ rfl

end Fillstruct
